import Mathlib

/-!
Verification development for the diagram compiler in `src/svg.ts`
(`parseDiagramDescription`, `layoutNodes`, `renderNode`, `renderEdge`,
`escapeXml`, `generateDiagram`).

Modelling conventions:
* JS `number` is modelled as `ℚ` (exact rational arithmetic).  All numeric
  literals of the source (`0.6`, `0.8`, spacings, offsets) are dyadic/decimal
  rationals, so every arithmetic operation performed by the compiler is exact
  on the values considered here.
* JS `string` is modelled as `String`; the string helpers used by the source
  (`split`, `trim`, `includes`, `endsWith`, `join`) are re-implemented below
  by structural recursion on the character list so that all of them reduce
  inside the kernel.  `trim` uses the common JS whitespace characters
  (exotic Unicode space separators are omitted).  `String#length` counts
  code points here rather than UTF-16 code units; none of the verified
  properties depends on the length of astral-plane text.
* A JS value that may be `undefined` is modelled as an `Option`.
  `DiagramNode.label` is declared `string` in TypeScript, but the parser can
  store `undefined` in it (a branch segment without a colon); it is therefore
  modelled as `Option String`.  Code that would throw a `TypeError` on such a
  value (`layoutNodes`, `renderNode` reading `label.length`/`label.replace`)
  is modelled in `Except String`.
* `id` fields: the template literals `node_${i}` / `node_${nodes.length}`
  are modelled with a hand-rolled decimal printer `natToString`.
-/

-- ─── JS string primitives ──────────────────────────────────────────────────

/-- Whitespace recognized by JS `String#trim` (common subset; exotic Unicode
space separators are omitted). -/
def jsWhitespace (c : Char) : Bool :=
  c = ' ' || c = '\t' || c = '\n' || c = '\r' ||
  c = '\x0b' || c = '\x0c' || c = '\u00A0' || c = '\uFEFF' ||
  c = '\u2028' || c = '\u2029'

/-- JS `String#trim`: strip whitespace from both ends. -/
def jsTrim (s : String) : String :=
  ⟨(((s.data.dropWhile jsWhitespace).reverse.dropWhile jsWhitespace).reverse)⟩

/-- JS `String#split` with a single-character separator (used for `","` and
`":"`): scans left to right, producing the segments between occurrences;
`""` yields `[""]`. -/
def splitOnChar (c : Char) : List Char → List (List Char)
  | [] => [[]]
  | a :: rest =>
    if a = c then [] :: splitOnChar c rest
    else
      match splitOnChar c rest with
      | [] => [[a]]
      | g :: gs => (a :: g) :: gs

/-- JS `String#split("->")`: scans left to right for non-overlapping
occurrences of the two-character separator `->`. -/
def splitArrowChars : List Char → List (List Char)
  | [] => [[]]
  | [a] => [[a]]
  | a :: b :: rest =>
    if a = '-' && b = '>' then
      [] :: splitArrowChars rest
    else
      match splitArrowChars (b :: rest) with
      | [] => [[a]]
      | g :: gs => (a :: g) :: gs

/-- JS `String#includes` with a single-character needle. -/
def includesChar (s : String) (c : Char) : Bool :=
  s.data.any (fun a => a = c)

/-- JS `String#endsWith("?")`. -/
def endsWithQ (s : String) : Bool :=
  s.data.getLast? = some '?'

/-- JS `Array#join(sep)`. -/
def joinSep (sep : String) : List String → String
  | [] => ""
  | x :: xs => xs.foldl (fun acc s => acc ++ sep ++ s) x

-- ─── Decimal printing (JS number/index → string in template literals) ──────

/-- The decimal digit characters. -/
def digitChar (d : Nat) : Char :=
  if d = 0 then '0' else if d = 1 then '1' else if d = 2 then '2'
  else if d = 3 then '3' else if d = 4 then '4' else if d = 5 then '5'
  else if d = 6 then '6' else if d = 7 then '7' else if d = 8 then '8'
  else '9'

/-- Digits of `n`, most significant first; `fuel` bounds the recursion and any
`fuel ≥` the digit count of `n` gives the exact decimal expansion. -/
def natDigitsAux : Nat → Nat → List Char
  | 0, _ => []
  | fuel + 1, n =>
    if n < 10 then [digitChar n]
    else natDigitsAux fuel (n / 10) ++ [digitChar (n % 10)]

/-- Decimal rendering of a natural number (JS integer-to-string). -/
def natToString (n : Nat) : String :=
  ⟨natDigitsAux (n + 1) n⟩

/-- Integer part of a non-negative rational. -/
def ratIntPart (a : ℚ) : Nat :=
  a.num.toNat / a.den

/-- Fractional decimal digits of `q` (with `0 ≤ q < 1`), up to `fuel` digits.
All fractional values produced by the compiler from double inputs have
terminating decimal expansions, so the bound is not reached on them. -/
def fracDigitsAux : Nat → ℚ → List Char
  | 0, _ => []
  | fuel + 1, q =>
    if q = 0 then []
    else
      let d : Nat := ratIntPart (q * 10)
      digitChar d :: fracDigitsAux fuel (q * 10 - (d : ℚ))

/-- JS number-to-string for the exact decimal values interpolated into the
SVG templates: optional sign, integer digits, and a fractional part only when
it is non-zero (so `40` prints as `"40"`, `42/5` as `"8.4"`). -/
def numToString (q : ℚ) : String :=
  let a : ℚ := if q < 0 then -q else q
  let ip : Nat := ratIntPart a
  let fr : List Char := fracDigitsAux 40 (a - (ip : ℚ))
  (if q < 0 then "-" else "") ++ natToString ip ++
    (if fr = [] then "" else "." ++ (⟨fr⟩ : String))

/-- The node id `node_${k}` (template literal of svg.ts lines 66 and 87). -/
def nodeIdStr (k : Nat) : String :=
  "node_" ++ natToString k

-- ─── Data model (svg.ts lines 10-40) ───────────────────────────────────────

/-- `DiagramNode` (svg.ts line 10).  `label` is `Option String` because the
parser stores JS `undefined` in it for a branch segment without a colon;
`subComponents` is optional in the interface.  `type` keeps the source's
string literals.  The field `type` is one of `"process" | "decision" |
"start" | "end" | "component"`. -/
structure DiagramNode where
  id : String
  label : Option String
  type : String
  subComponents : Option (List String)
  x : ℚ
  y : ℚ
  width : ℚ
  height : ℚ

/-- `DiagramEdge` (svg.ts line 21).  `from` is a Lean keyword, hence `fromId`
/ `toId`.  `label` is optional exactly as in the interface. -/
structure DiagramEdge where
  fromId : String
  toId : String
  label : Option String

/-- `DiagramOptions` (svg.ts line 27); every field is optional. -/
structure DiagramOptions where
  type : Option String := none
  width : Option ℚ := none
  nodeSpacing : Option ℚ := none
  layerSpacing : Option ℚ := none
  fontSize : Option ℚ := none
  fontFamily : Option String := none

/-- `DiagramResult` (svg.ts line 36). -/
structure DiagramResult where
  svg : String
  nodes : List DiagramNode
  edges : List DiagramEdge

-- ─── Parsing (svg.ts lines 44-104) ─────────────────────────────────────────

/-- The `->`-delimited stages after trimming and dropping empties
(svg.ts line 49). -/
def stageList (desc : String) : List String :=
  ((splitArrowChars desc.data).map (fun cs => jsTrim ⟨cs⟩)).filter
    (fun p => p.length > 0)

/-- A stage is a branch group when it contains both `:` and `,`
(svg.ts line 62). -/
def branchGroup (p : String) : Bool :=
  includesChar p ':' && includesChar p ','

/-- The comma-separated branch segments of a branch-group stage
(svg.ts line 63). -/
def branchSegs (p : String) : List String :=
  (splitOnChar ',' p.data).map (fun cs => jsTrim ⟨cs⟩)

/-- `branch.split(":").map(trim)` destructured as `[label, target]`
(svg.ts line 65); `target` is `undefined` (`none`) when the segment has no
colon. -/
def pairLabelTarget (b : String) : String × Option String :=
  match (splitOnChar ':' b.data).map (fun cs => jsTrim ⟨cs⟩) with
  | [] => ("", none)
  | [l] => (l, none)
  | l :: t :: _ => (l, some t)

/-- The sub-component pattern `/^(.+?)\[(.+)\]$/` (svg.ts line 82).  `.`
does not match a line terminator, so the pattern fails on any stage that
contains one.  The lazy group stops at the first `[` that is preceded by at
least one character; the match succeeds when that `[` leaves at least one
inner character before a final `]` (backtracking to a later `[` can only
happen when the remainder is too short, in which case every later `[` is
too short as well). -/
def compMatch (part : String) : Option (String × String) :=
  let cs := part.data
  if cs.any (fun c => c = '\n' || c = '\r') then none
  else
    match cs with
    | [] => none
    | _ :: rest =>
      match rest.findIdx? (fun c => c = '[') with
      | none => none
      | some j =>
        let k := j + 1
        if k + 3 ≤ cs.length ∧ cs.getLast? = some ']' then
          some (⟨cs.take k⟩, ⟨(cs.drop (k + 1)).dropLast⟩)
        else none

/-- The node built for a non-branch stage `part` at stage index `i` of
`total` stages (svg.ts lines 82-95).  Geometry is zero-initialised. -/
def mkPlainNode (total i : Nat) (part : String) : DiagramNode :=
  let label := match compMatch part with
    | some nm => jsTrim nm.1
    | none => part
  let subs : Option (List String) := match compMatch part with
    | some nm => some ((splitOnChar ',' nm.2.data).map (fun cs => jsTrim ⟨cs⟩))
    | none => none
  let isDecision := endsWithQ part
  { id := nodeIdStr i
    label := some label
    type :=
      if isDecision then "decision"
      else if i = 0 then "start"
      else if i = total - 1 then "end"
      else "process"
    subComponents := subs
    x := 0, y := 0, width := 0, height := 0 }

/-- One iteration of the branch-group loop (svg.ts lines 64-77): push a
`process` node for the segment, then — when the stage index is positive —
read `nodes[nodes.length - 2]?.id` (the node *before the one just pushed*)
and, if it is a truthy id, push an edge from it carrying the segment's label.
-/
def branchStep (i : Nat) (acc : List DiagramNode × List DiagramEdge)
    (b : String) : List DiagramNode × List DiagramEdge :=
  let lt := pairLabelTarget b
  let nodeId := nodeIdStr acc.1.length
  let node : DiagramNode :=
    { id := nodeId, label := lt.2, type := "process", subComponents := none
      x := 0, y := 0, width := 0, height := 0 }
  let ns := acc.1 ++ [node]
  if i > 0 then
    match (if 2 ≤ ns.length then (ns.get? (ns.length - 2)).map (fun n => n.id)
           else none) with
    | some pid =>
      if pid = "" then (ns, acc.2)
      else (ns, acc.2 ++ [{ fromId := pid, toId := nodeId, label := some lt.1 }])
    | none => (ns, acc.2)
  else (ns, acc.2)

/-- Processing of a whole branch-group stage (svg.ts lines 62-79). -/
def processBranch (i : Nat) (part : String)
    (acc : List DiagramNode × List DiagramEdge) :
    List DiagramNode × List DiagramEdge :=
  (branchSegs part).foldl (branchStep i) acc

/-- Processing of a non-branch stage (svg.ts lines 82-100): push the node,
then — when the stage index is positive — look up the first node whose id is
`node_${i-1}` and push an edge from it. -/
def plainStep (total i : Nat) (part : String)
    (acc : List DiagramNode × List DiagramEdge) :
    List DiagramNode × List DiagramEdge :=
  let node := mkPlainNode total i part
  let ns := acc.1 ++ [node]
  if i > 0 then
    match ns.find? (fun n => n.id = nodeIdStr (i - 1)) with
    | some prev => (ns, acc.2 ++ [{ fromId := prev.id, toId := node.id, label := none }])
    | none => (ns, acc.2)
  else (ns, acc.2)

/-- The `for` loop of `parseDiagramDescription` (svg.ts lines 51-101).
The guard at lines 55-59 (re-splitting a stage that still contains `->`)
can never fire — `split("->")` leaves no occurrence of `->` inside a part —
so it has no counterpart here. -/
def parseLoop (total : Nat) : Nat → List String →
    List DiagramNode × List DiagramEdge → List DiagramNode × List DiagramEdge
  | _, [], acc => acc
  | i, p :: rest, acc =>
    parseLoop total (i + 1) rest
      (if branchGroup p then processBranch i p acc else plainStep total i p acc)

/-- `parseDiagramDescription` (svg.ts line 44). -/
def parseDiagramDescription (desc : String) :
    List DiagramNode × List DiagramEdge :=
  let parts := stageList desc
  parseLoop parts.length 0 parts ([], [])

-- ─── Layout (svg.ts lines 108-148) ─────────────────────────────────────────

/-- Sequential fail-fast mapping (the source's `for` loops over nodes, which
stop at the first thrown `TypeError`). -/
def mapExcept (f : α → Except String β) : List α → Except String (List β)
  | [] => .ok []
  | a :: l =>
    match f a with
    | .error e => .error e
    | .ok b =>
      match mapExcept f l with
      | .error e => .error e
      | .ok bs => .ok (b :: bs)

/-- The sizing pass for one node (svg.ts lines 113-127).  Reading
`node.label.length` throws when the label is `undefined`. -/
def sizeNode (fontSize : ℚ) (node : DiagramNode) : Except String DiagramNode :=
  match node.label with
  | none => .error "TypeError: Cannot read properties of undefined"
  | some lab =>
    let charWidth := fontSize * (6/10)
    let textWidth := (lab.length : ℚ) * charWidth
    let subWidth : ℚ :=
      match node.subComponents with
      | some subs => ((joinSep ", " subs).length : ℚ) * charWidth * (8/10)
      | none => 0
    let w := max 100 (max (textWidth + 30) (subWidth + 30))
    let h : ℚ := match node.subComponents with | some _ => 60 | none => 40
    if node.type = "decision" then
      .ok { node with width := max w 120, height := 50 }
    else
      .ok { node with width := w, height := h }

/-- The layered vertical placement (svg.ts lines 129-136): x centers the node
in the target width, y accumulates from the starting offset. -/
def placeArchitecture (width layerSpacing : ℚ) : ℚ → List DiagramNode →
    List DiagramNode
  | _, [] => []
  | y, n :: rest =>
    { n with x := (width - n.width) / 2, y := y } ::
      placeArchitecture width layerSpacing (y + n.height + layerSpacing) rest

/-- The horizontal placement (svg.ts lines 137-147): x accumulates from the
starting offset, y centers each node against the tallest node. -/
def placeHorizontal (nodeSpacing maxHeight : ℚ) : ℚ → List DiagramNode →
    List DiagramNode
  | _, [] => []
  | x, n :: rest =>
    { n with x := x, y := 60 + (maxHeight - n.height) / 2 } ::
      placeHorizontal nodeSpacing maxHeight (x + n.width + nodeSpacing) rest

/-- `Math.max(...)` over the node heights (svg.ts line 140).  For an empty
node list the JS value is `-Infinity`, but it is then never used (the
placement loop has no iterations), so any default works; `0` is used here. -/
def maxHeightOf (l : List ℚ) : ℚ :=
  match l with
  | [] => 0
  | h :: t => t.foldl max h

/-- `layoutNodes` (svg.ts line 108): the sizing pass, then one of the two
placement strategies.  Vertical start offset 40, horizontal start offset 40
and center line 60 as in the source. -/
def layoutNodes (nodes : List DiagramNode) (type : String)
    (width nodeSpacing layerSpacing fontSize : ℚ) :
    Except String (List DiagramNode) :=
  match mapExcept (sizeNode fontSize) nodes with
  | .error e => .error e
  | .ok sized =>
    if type = "architecture" then
      .ok (placeArchitecture width layerSpacing 40 sized)
    else
      .ok (placeHorizontal nodeSpacing
        (maxHeightOf (sized.map (fun n => n.height))) 40 sized)

-- ─── SVG generation (svg.ts lines 152-215) ─────────────────────────────────

/-- One global single-character replacement (each step of `escapeXml` is a
`replace(/c/g, rep)` with a one-character pattern). -/
def replaceChar (c : Char) (rep : String) : List Char → List Char
  | [] => []
  | a :: l =>
    (if a = c then rep.data else [a]) ++ replaceChar c rep l

/-- `escapeXml` (svg.ts line 213): the four global replacements applied in
the source's order, `&` first. -/
def escapeXml (s : String) : String :=
  ⟨replaceChar '"' "&quot;"
    (replaceChar '>' "&gt;"
      (replaceChar '<' "&lt;"
        (replaceChar '&' "&amp;" s.data)))⟩

/-- `renderNode` (svg.ts line 152).  Reading `node.label` for escaping
throws when it is `undefined` (`escapeXml(undefined)` calls
`undefined.replace`).  The locals `hw`/`hh` of the decision branch are unused
in the source and have no counterpart.  The parts are joined with
`"\n  "`. -/
def renderNode (node : DiagramNode) (fontSize : ℚ) (fontFamily : String) :
    Except String String :=
  match node.label with
  | none => .error "TypeError: Cannot read properties of undefined"
  | some lab =>
    let cx := node.x + node.width / 2
    let cy := node.y + node.height / 2
    let shape : String :=
      if node.type = "decision" then
        "<polygon points=\"" ++ numToString cx ++ "," ++ numToString node.y ++
          " " ++ numToString (node.x + node.width) ++ "," ++ numToString cy ++
          " " ++ numToString cx ++ "," ++ numToString (node.y + node.height) ++
          " " ++ numToString node.x ++ "," ++ numToString cy ++
          "\" fill=\"#FFF3E0\" stroke=\"#E65100\" stroke-width=\"2\"/>"
      else if node.type = "start" then
        "<rect x=\"" ++ numToString node.x ++ "\" y=\"" ++ numToString node.y ++
          "\" width=\"" ++ numToString node.width ++ "\" height=\"" ++
          numToString node.height ++
          "\" rx=\"8\" fill=\"#E8F5E9\" stroke=\"#2E7D32\" stroke-width=\"2\"/>"
      else if node.type = "end" then
        "<rect x=\"" ++ numToString node.x ++ "\" y=\"" ++ numToString node.y ++
          "\" width=\"" ++ numToString node.width ++ "\" height=\"" ++
          numToString node.height ++
          "\" rx=\"8\" fill=\"#FFEBEE\" stroke=\"#C62828\" stroke-width=\"2\"/>"
      else
        "<rect x=\"" ++ numToString node.x ++ "\" y=\"" ++ numToString node.y ++
          "\" width=\"" ++ numToString node.width ++ "\" height=\"" ++
          numToString node.height ++
          "\" rx=\"6\" fill=\"#E3F2FD\" stroke=\"#1565C0\" stroke-width=\"2\"/>"
    let labelY := match node.subComponents with
      | some _ => cy - 6
      | none => cy + 4
    let labelLine : String :=
      "<text x=\"" ++ numToString cx ++ "\" y=\"" ++ numToString labelY ++
        "\" text-anchor=\"middle\" font-family=\"" ++ fontFamily ++
        "\" font-size=\"" ++ numToString fontSize ++ "\" fill=\"#212121\">" ++
        escapeXml lab ++ "</text>"
    let subLines : List String :=
      match node.subComponents with
      | some subs =>
        ["<text x=\"" ++ numToString cx ++ "\" y=\"" ++ numToString (cy + 14) ++
          "\" text-anchor=\"middle\" font-family=\"" ++ fontFamily ++
          "\" font-size=\"" ++ numToString (fontSize - 2) ++
          "\" fill=\"#616161\">[" ++ escapeXml (joinSep ", " subs) ++ "]</text>"]
      | none => []
    .ok (joinSep "\n  " ([shape, labelLine] ++ subLines))

/-- `renderEdge` (svg.ts line 183): look both endpoints up by id; a missing
endpoint renders as `""`.  A label is rendered only when truthy (a present,
non-empty string). -/
def renderEdge (edge : DiagramEdge) (nodes : List DiagramNode)
    (vertical : Bool) : String :=
  match nodes.find? (fun n => n.id = edge.fromId),
        nodes.find? (fun n => n.id = edge.toId) with
  | some fromN, some toN =>
    let x1 := if vertical then fromN.x + fromN.width / 2 else fromN.x + fromN.width
    let y1 := if vertical then fromN.y + fromN.height else fromN.y + fromN.height / 2
    let x2 := if vertical then toN.x + toN.width / 2 else toN.x
    let y2 := if vertical then toN.y else toN.y + toN.height / 2
    let line :=
      "<line x1=\"" ++ numToString x1 ++ "\" y1=\"" ++ numToString y1 ++
        "\" x2=\"" ++ numToString x2 ++ "\" y2=\"" ++ numToString y2 ++
        "\" stroke=\"#424242\" stroke-width=\"2\" marker-end=\"url(#arrowhead)\"/>"
    match edge.label with
    | some lab =>
      if lab = "" then line
      else
        line ++ "\n  <text x=\"" ++ numToString ((x1 + x2) / 2) ++ "\" y=\"" ++
          numToString ((y1 + y2) / 2 - 8) ++
          "\" text-anchor=\"middle\" font-size=\"11\" fill=\"#757575\">" ++
          escapeXml lab ++ "</text>"
    | none => line
  | _, _ => ""

-- ─── Main API (svg.ts lines 219-257) ───────────────────────────────────────

/-- Default resolution of a numeric option: `options.x || default` replaces
both an absent value and the falsy number `0`. -/
def orDefaultQ (o : Option ℚ) (d : ℚ) : ℚ :=
  match o with
  | some v => if v = 0 then d else v
  | none => d

/-- Default resolution of a string option: `options.x || default` replaces
both an absent value and the falsy empty string. -/
def orDefaultS (o : Option String) (d : String) : String :=
  match o with
  | some s => if s = "" then d else s
  | none => d

/-- `generateDiagram` (svg.ts line 219): resolve option defaults, parse,
lay out, compute the canvas bounds, then emit the document (defs and
background, then edges, then nodes). -/
def generateDiagram (description : String)
    (options : DiagramOptions := {}) : Except String DiagramResult :=
  let type := orDefaultS options.type "pipeline"
  let fontSize := orDefaultQ options.fontSize 14
  let fontFamily := orDefaultS options.fontFamily "Arial, Helvetica, sans-serif"
  let nodeSpacing := orDefaultQ options.nodeSpacing 60
  let layerSpacing := orDefaultQ options.layerSpacing 50
  let targetWidth := orDefaultQ options.width 800
  let pe := parseDiagramDescription description
  match layoutNodes pe.1 type targetWidth nodeSpacing layerSpacing fontSize with
  | .error e => .error e
  | .ok nodes =>
    let vertical := type = "architecture"
    let maxX := ((nodes.map (fun n => n.x + n.width)).foldl max 200) + 40
    let maxY := ((nodes.map (fun n => n.y + n.height)).foldl max 100) + 40
    let svgWidth := max maxX 200
    let svgHeight := max maxY 100
    match mapExcept (fun n => renderNode n fontSize fontFamily) nodes with
    | .error e => .error e
    | .ok nodeStrs =>
      let header :=
        "<svg xmlns=\"http://www.w3.org/2000/svg\" width=\"" ++
          numToString svgWidth ++ "\" height=\"" ++ numToString svgHeight ++
          "\" viewBox=\"0 0 " ++ numToString svgWidth ++ " " ++
          numToString svgHeight ++ "\">"
      let parts : List String :=
        [header,
         "  <defs>",
         "    <marker id=\"arrowhead\" markerWidth=\"10\" markerHeight=\"7\" refX=\"10\" refY=\"3.5\" orient=\"auto\">",
         "      <polygon points=\"0 0, 10 3.5, 0 7\" fill=\"#424242\"/>",
         "    </marker>",
         "  </defs>",
         "  <rect width=\"100%\" height=\"100%\" fill=\"white\"/>"] ++
        (pe.2.map (fun e => "  " ++ renderEdge e nodes vertical)) ++
        (nodeStrs.map (fun s => "  " ++ s)) ++
        ["</svg>"]
      .ok { svg := joinSep "\n" parts, nodes := nodes, edges := pe.2 }

/-- The node list of a compile result (`[]` for a thrown error). -/
def resultNodes : Except String DiagramResult → List DiagramNode
  | .ok r => r.nodes
  | .error _ => []

/-- The edge list of a compile result (`[]` for a thrown error). -/
def resultEdges : Except String DiagramResult → List DiagramEdge
  | .ok r => r.edges
  | .error _ => []

/-- The document of a compile result (`""` for a thrown error). -/
def resultSvg : Except String DiagramResult → String
  | .ok r => r.svg
  | .error _ => ""

-- ─── Lemmas: decimal printing ──────────────────────────────────────────────

/-- Value of a digit string, most significant first. -/
def digitsVal (cs : List Char) : Nat :=
  cs.foldl (fun acc c => 10 * acc + (c.toNat - 48)) 0

theorem digitChar_toNat {d : Nat} (h : d < 10) :
    (digitChar d).toNat = 48 + d := by
  unfold digitChar
  split_ifs with h0 h1 h2 h3 h4 h5 h6 h7 h8
  · subst h0; decide
  · subst h1; decide
  · subst h2; decide
  · subst h3; decide
  · subst h4; decide
  · subst h5; decide
  · subst h6; decide
  · subst h7; decide
  · subst h8; decide
  · have : d = 9 := by omega
    subst this; decide

theorem digitChar_safe (d : Nat) :
    digitChar d ≠ '&' ∧ digitChar d ≠ '<' := by
  unfold digitChar
  split_ifs <;> exact ⟨by decide, by decide⟩

theorem digitsVal_append (xs ys : List Char) :
    digitsVal (xs ++ ys) =
      ys.foldl (fun acc c => 10 * acc + (c.toNat - 48)) (digitsVal xs) := by
  simp [digitsVal, List.foldl_append]

theorem natDigitsAux_val : ∀ (fuel n : Nat), n < 10 ^ fuel →
    digitsVal (natDigitsAux fuel n) = n := by
  intro fuel
  induction fuel with
  | zero =>
    intro n h
    simp at h
    subst h
    decide
  | succ fuel ih =>
    intro n h
    by_cases h10 : n < 10
    · simp only [natDigitsAux, if_pos h10]
      simp [digitsVal, digitChar_toNat h10]
    · simp only [natDigitsAux, if_neg h10]
      rw [digitsVal_append]
      have hdiv : n / 10 < 10 ^ fuel := by
        rw [Nat.div_lt_iff_lt_mul (by norm_num : 0 < 10)]
        calc n < 10 ^ (fuel + 1) := h
        _ = 10 ^ fuel * 10 := by ring
      rw [ih (n / 10) hdiv]
      simp only [List.foldl]
      rw [digitChar_toNat (Nat.mod_lt n (by norm_num))]
      omega

theorem natToString_inj : Function.Injective natToString := by
  intro a b h
  have hda : digitsVal (natDigitsAux (a + 1) a) = a := by
    apply natDigitsAux_val
    calc a < 10 ^ a := Nat.lt_pow_self (by norm_num) a
    _ < 10 ^ (a + 1) := Nat.pow_lt_pow_succ (by norm_num)
  have hdb : digitsVal (natDigitsAux (b + 1) b) = b := by
    apply natDigitsAux_val
    calc b < 10 ^ b := Nat.lt_pow_self (by norm_num) b
    _ < 10 ^ (b + 1) := Nat.pow_lt_pow_succ (by norm_num)
  have hd : natDigitsAux (a + 1) a = natDigitsAux (b + 1) b :=
    congrArg String.data h
  rw [← hda, ← hdb, hd]

theorem nodeIdStr_inj : Function.Injective nodeIdStr := by
  intro a b h
  apply natToString_inj
  have hd := congrArg String.data h
  rw [nodeIdStr, nodeIdStr, String.data_append, String.data_append] at hd
  exact String.ext (List.append_cancel_left hd)

theorem natDigitsAux_digits : ∀ (fuel n : Nat), ∀ c ∈ natDigitsAux fuel n,
    ∃ d, c = digitChar d := by
  intro fuel
  induction fuel with
  | zero => intro n c hc; simp [natDigitsAux] at hc
  | succ fuel ih =>
    intro n c hc
    by_cases h10 : n < 10
    · simp only [natDigitsAux, if_pos h10, List.mem_singleton] at hc
      exact ⟨n, hc⟩
    · simp only [natDigitsAux, if_neg h10, List.mem_append,
        List.mem_singleton] at hc
      rcases hc with hc | hc
      · exact ih _ c hc
      · exact ⟨n % 10, hc⟩

theorem fracDigitsAux_digits : ∀ (fuel : Nat) (q : ℚ),
    ∀ c ∈ fracDigitsAux fuel q, ∃ d, c = digitChar d := by
  intro fuel
  induction fuel with
  | zero => intro q c hc; simp [fracDigitsAux] at hc
  | succ fuel ih =>
    intro q c hc
    by_cases h0 : q = 0
    · simp [fracDigitsAux, if_pos h0] at hc
    · simp only [fracDigitsAux, if_neg h0, List.mem_cons] at hc
      rcases hc with hc | hc
      · exact ⟨_, hc⟩
      · exact ih _ c hc

theorem numToString_chars (q : ℚ) :
    ∀ c ∈ (numToString q).data, c ≠ '&' ∧ c ≠ '<' := by
  intro c hc
  simp only [numToString, String.data_append] at hc
  rw [List.mem_append, List.mem_append] at hc
  rcases hc with (hc | hc) | hc
  · split_ifs at hc <;> simp at hc
    subst hc; exact ⟨by decide, by decide⟩
  · rcases natDigitsAux_digits _ _ c hc with ⟨d, rfl⟩
    exact digitChar_safe d
  · split_ifs at hc <;>
      first
        | (rw [show ("" : String).data = [] from rfl] at hc
           cases hc)
        | (rw [String.data_append, List.mem_append,
            show ("." : String).data = ['.'] from rfl] at hc
           rcases hc with hc | hc
           · rw [List.mem_singleton] at hc
             subst hc; exact ⟨by decide, by decide⟩
           · rcases fracDigitsAux_digits _ _ c hc with ⟨d, rfl⟩
             exact digitChar_safe d)

theorem ratIntPart_natCast (n : ℕ) : ratIntPart (n : ℚ) = n := by
  simp [ratIntPart]

theorem numToString_natCast (n : ℕ) :
    numToString (n : ℚ) = natToString n := by
  have hnn : ¬((n : ℚ) < 0) := by
    exact not_lt.mpr (by positivity)
  simp only [numToString, if_neg hnn, ratIntPart_natCast]
  rw [sub_self]
  simp only [fracDigitsAux, if_pos rfl, if_pos rfl]
  apply String.ext
  simp [String.data_append]

-- ─── Lemmas: document safety ───────────────────────────────────────────────

/-- The character `&` is immediately followed by one of the four entity
bodies emitted by `escapeXml`. -/
def entityAfterAmp (rest : List Char) : Bool :=
  "amp;".data.isPrefixOf rest || "lt;".data.isPrefixOf rest ||
  "gt;".data.isPrefixOf rest || "quot;".data.isPrefixOf rest

/-- A character list is "document safe" when every `&` starts one of the four
XML entities and every `<` opens a markup tag (it is followed by a lower-case
tag name or `/`).  Text that went through `escapeXml` and the fixed SVG
templates both satisfy this; raw user-supplied `&` or `<` in text content
would violate it. -/
def svgSafeChars : List Char → Bool
  | [] => true
  | c :: rest =>
    (if c = '&' then entityAfterAmp rest
     else if c = '<' then
       (match rest with
        | [] => false
        | d :: _ => d = '/' || ('a' ≤ d && d ≤ 'z'))
     else true) && svgSafeChars rest

theorem entityAfterAmp_append {rest : List Char} (b : List Char)
    (h : entityAfterAmp rest = true) : entityAfterAmp (rest ++ b) = true := by
  have mono : ∀ p : List Char, p.isPrefixOf rest = true →
      p.isPrefixOf (rest ++ b) = true := by
    intro p hp
    rw [List.isPrefixOf_iff_prefix] at hp ⊢
    exact hp.trans (List.prefix_append rest b)
  simp only [entityAfterAmp, Bool.or_eq_true] at h ⊢
  rcases h with ((h | h) | h) | h
  · exact Or.inl (Or.inl (Or.inl (mono _ h)))
  · exact Or.inl (Or.inl (Or.inr (mono _ h)))
  · exact Or.inl (Or.inr (mono _ h))
  · exact Or.inr (mono _ h)

theorem svgSafeChars_append : ∀ {a b : List Char},
    svgSafeChars a = true → svgSafeChars b = true →
    svgSafeChars (a ++ b) = true := by
  intro a
  induction a with
  | nil => intro b _ hb; exact hb
  | cons c rest ih =>
    intro b ha hb
    rw [show (c :: rest) ++ b = c :: (rest ++ b) from rfl]
    simp only [svgSafeChars, Bool.and_eq_true] at ha ⊢
    refine ⟨?_, ih ha.2 hb⟩
    rcases ha with ⟨hcond, -⟩
    by_cases h1 : c = '&'
    · rw [if_pos h1] at hcond ⊢
      exact entityAfterAmp_append b hcond
    · rw [if_neg h1] at hcond ⊢
      by_cases h2 : c = '<'
      · rw [if_pos h2] at hcond ⊢
        cases rest with
        | nil => cases hcond
        | cons d t => exact hcond
      · rw [if_neg h2] at hcond ⊢

theorem svgSafeChars_of_no_specials : ∀ {cs : List Char},
    (∀ c ∈ cs, c ≠ '&' ∧ c ≠ '<') → svgSafeChars cs = true := by
  intro cs
  induction cs with
  | nil => intro _; rfl
  | cons c rest ih =>
    intro h
    have hc := h c (List.mem_cons_self c rest)
    simp only [svgSafeChars, Bool.and_eq_true]
    refine ⟨?_, ih (fun a ha => h a (List.mem_cons_of_mem c ha))⟩
    rw [if_neg hc.1, if_neg hc.2]

/-- The per-character form of `escapeXml`: the sequential global replacements
never re-inspect their own output, so `escapeXml` maps characters
independently. -/
def escChar (a : Char) : List Char :=
  if a = '&' then "&amp;".data
  else if a = '<' then "&lt;".data
  else if a = '>' then "&gt;".data
  else if a = '"' then "&quot;".data
  else [a]

/-- `escChar` applied to every character in order. -/
def escCharsAll : List Char → List Char
  | [] => []
  | a :: l => escChar a ++ escCharsAll l

theorem replaceChar_append (c : Char) (rep : String) :
    ∀ l₁ l₂ : List Char,
    replaceChar c rep (l₁ ++ l₂) = replaceChar c rep l₁ ++ replaceChar c rep l₂ := by
  intro l₁
  induction l₁ with
  | nil => intro l₂; rfl
  | cons a l ih =>
    intro l₂
    show (if a = c then rep.data else [a]) ++ replaceChar c rep (l ++ l₂) = _
    rw [ih, ← List.append_assoc]
    rfl

theorem replaceChar_singleton (c : Char) (rep : String) (a : Char) :
    replaceChar c rep [a] = if a = c then rep.data else [a] := by
  show (if a = c then rep.data else [a]) ++ replaceChar c rep [] = _
  rw [show replaceChar c rep [] = [] from rfl, List.append_nil]

theorem escChar_block (a : Char) :
    replaceChar '"' "&quot;" (replaceChar '>' "&gt;"
      (replaceChar '<' "&lt;" (replaceChar '&' "&amp;" [a]))) = escChar a := by
  by_cases h1 : a = '&'
  · subst h1; decide
  · by_cases h2 : a = '<'
    · subst h2; decide
    · by_cases h3 : a = '>'
      · subst h3; decide
      · by_cases h4 : a = '"'
        · subst h4; decide
        · rw [replaceChar_singleton, if_neg h1, replaceChar_singleton, if_neg h2,
            replaceChar_singleton, if_neg h3, replaceChar_singleton, if_neg h4,
            escChar, if_neg h1, if_neg h2, if_neg h3, if_neg h4]

theorem escapeXml_data (s : String) :
    (escapeXml s).data = escCharsAll s.data := by
  show replaceChar '"' "&quot;" (replaceChar '>' "&gt;"
    (replaceChar '<' "&lt;" (replaceChar '&' "&amp;" s.data))) = _
  induction s.data with
  | nil => rfl
  | cons a l ih =>
    rw [show (a :: l) = [a] ++ l from rfl, replaceChar_append, replaceChar_append,
      replaceChar_append, replaceChar_append, ih, escChar_block]
    rfl

theorem escChar_facts (a : Char) :
    svgSafeChars (escChar a) = true ∧ '<' ∉ escChar a ∧ '>' ∉ escChar a ∧
      '"' ∉ escChar a := by
  by_cases h1 : a = '&'
  · subst h1; decide
  · by_cases h2 : a = '<'
    · subst h2; decide
    · by_cases h3 : a = '>'
      · subst h3; decide
      · by_cases h4 : a = '"'
        · subst h4; decide
        · rw [escChar, if_neg h1, if_neg h2, if_neg h3, if_neg h4]
          refine ⟨svgSafeChars_of_no_specials ?_, ?_, ?_, ?_⟩
          · intro c hc
            rw [List.mem_singleton] at hc
            subst hc
            exact ⟨h1, h2⟩
          · simp [List.mem_singleton]
            exact fun h => h2 h.symm
          · simp [List.mem_singleton]
            exact fun h => h3 h.symm
          · simp [List.mem_singleton]
            exact fun h => h4 h.symm

theorem escCharsAll_safe : ∀ cs : List Char,
    svgSafeChars (escCharsAll cs) = true := by
  intro cs
  induction cs with
  | nil => rfl
  | cons a l ih =>
    exact svgSafeChars_append (escChar_facts a).1 ih

theorem escCharsAll_no_specials : ∀ cs : List Char,
    '<' ∉ escCharsAll cs ∧ '>' ∉ escCharsAll cs ∧ '"' ∉ escCharsAll cs := by
  intro cs
  induction cs with
  | nil => exact ⟨List.not_mem_nil _, List.not_mem_nil _, List.not_mem_nil _⟩
  | cons a l ih =>
    have ha := escChar_facts a
    refine ⟨?_, ?_, ?_⟩ <;>
      · rw [show escCharsAll (a :: l) = escChar a ++ escCharsAll l from rfl,
          List.mem_append]
        rintro (h | h)
        · first
            | exact ha.2.1 h
            | exact ha.2.2.1 h
            | exact ha.2.2.2 h
        · first
            | exact ih.1 h
            | exact ih.2.1 h
            | exact ih.2.2 h

theorem escapeXml_safe (s : String) :
    svgSafeChars (escapeXml s).data = true := by
  rw [escapeXml_data]
  exact escCharsAll_safe s.data

theorem joinSep_foldl_safe (sep : String) (hsep : svgSafeChars sep.data = true) :
    ∀ (xs : List String) (acc : String),
    svgSafeChars acc.data = true → (∀ s ∈ xs, svgSafeChars s.data = true) →
    svgSafeChars (xs.foldl (fun acc s => acc ++ sep ++ s) acc).data = true := by
  intro xs
  induction xs with
  | nil => intro acc hacc _; exact hacc
  | cons x l ih =>
    intro acc hacc hall
    refine ih _ ?_ (fun s hs => hall s (List.mem_cons_of_mem x hs))
    rw [String.data_append, String.data_append]
    exact svgSafeChars_append (svgSafeChars_append hacc hsep)
      (hall x (List.mem_cons_self x l))

theorem joinSep_safe (sep : String) (hsep : svgSafeChars sep.data = true)
    (l : List String) (hall : ∀ s ∈ l, svgSafeChars s.data = true) :
    svgSafeChars (joinSep sep l).data = true := by
  cases l with
  | nil => rfl
  | cons x xs =>
    exact joinSep_foldl_safe sep hsep xs x (hall x (List.mem_cons_self x xs))
      (fun s hs => hall s (List.mem_cons_of_mem x hs))

-- ─── Lemmas: parser structure ──────────────────────────────────────────────

/-- The node pushed for one branch segment when the node array has length
`len`. -/
def mkBranchNode (len : Nat) (b : String) : DiagramNode :=
  { id := nodeIdStr len, label := (pairLabelTarget b).2, type := "process"
    subComponents := none, x := 0, y := 0, width := 0, height := 0 }

/-- The nodes created by a branch-group stage, starting at node-array length
`len`. -/
def branchNodes (len : Nat) : List String → List DiagramNode
  | [] => []
  | b :: rest => mkBranchNode len b :: branchNodes (len + 1) rest

/-- The nodes created by one stage (`i` its stage index, `len` the node-array
length when it is processed). -/
def stageNodes (total i len : Nat) (p : String) : List DiagramNode :=
  if branchGroup p then branchNodes len (branchSegs p)
  else [mkPlainNode total i p]

/-- The nodes created by a suffix of the stage list. -/
def stagesNodes (total : Nat) : Nat → Nat → List String → List DiagramNode
  | _, _, [] => []
  | i, len, p :: rest =>
    stageNodes total i len p ++
      stagesNodes total (i + 1) (len + (stageNodes total i len p).length) rest

/-- One node per `Label: Target` segment of a branch group, one otherwise. -/
def stageSize (p : String) : Nat :=
  if branchGroup p then (branchSegs p).length else 1

/-- The node count promised by the specification: one node per non-empty
stage, with branch groups contributing one node per comma segment. -/
def expectedNodeCount (desc : String) : Nat :=
  ((stageList desc).map stageSize).sum

theorem branchNodes_length : ∀ (segs : List String) (len : Nat),
    (branchNodes len segs).length = segs.length := by
  intro segs
  induction segs with
  | nil => intro len; rfl
  | cons b rest ih => intro len; simp [branchNodes, ih]

theorem stageNodes_length (total i len : Nat) (p : String) :
    (stageNodes total i len p).length = stageSize p := by
  unfold stageNodes stageSize
  split_ifs
  · exact branchNodes_length _ _
  · rfl

theorem branchStep_fst (i : Nat) (acc : List DiagramNode × List DiagramEdge)
    (b : String) :
    (branchStep i acc b).1 = acc.1 ++ [mkBranchNode acc.1.length b] := by
  simp only [branchStep]
  split
  · split
    · split
      · rfl
      · rfl
    · rfl
  · rfl

theorem branchFold_fst : ∀ (segs : List String)
    (i : Nat) (acc : List DiagramNode × List DiagramEdge),
    (segs.foldl (branchStep i) acc).1 = acc.1 ++ branchNodes acc.1.length segs := by
  intro segs
  induction segs with
  | nil => intro i acc; simp [branchNodes]
  | cons b rest ih =>
    intro i acc
    rw [List.foldl_cons, ih, branchStep_fst]
    rw [show branchNodes acc.1.length (b :: rest) =
      mkBranchNode acc.1.length b :: branchNodes (acc.1.length + 1) rest from rfl]
    simp

theorem plainStep_fst (total i : Nat) (part : String)
    (acc : List DiagramNode × List DiagramEdge) :
    (plainStep total i part acc).1 = acc.1 ++ [mkPlainNode total i part] := by
  simp only [plainStep]
  split
  · split
    · rfl
    · rfl
  · rfl

theorem parseLoop_fst : ∀ (parts : List String) (total i : Nat)
    (acc : List DiagramNode × List DiagramEdge),
    (parseLoop total i parts acc).1 =
      acc.1 ++ stagesNodes total i acc.1.length parts := by
  intro parts
  induction parts with
  | nil => intro total i acc; simp [parseLoop, stagesNodes]
  | cons p rest ih =>
    intro total i acc
    rw [show parseLoop total i (p :: rest) acc =
      parseLoop total (i + 1) rest
        (if branchGroup p then processBranch i p acc
         else plainStep total i p acc) from rfl]
    rw [ih]
    by_cases hb : branchGroup p
    · rw [if_pos hb]
      rw [show processBranch i p acc = (branchSegs p).foldl (branchStep i) acc
        from rfl]
      rw [branchFold_fst]
      rw [show stagesNodes total i acc.1.length (p :: rest) =
        stageNodes total i acc.1.length p ++
          stagesNodes total (i + 1)
            (acc.1.length + (stageNodes total i acc.1.length p).length) rest
        from rfl]
      rw [show stageNodes total i acc.1.length p =
        branchNodes acc.1.length (branchSegs p) from if_pos hb]
      simp [branchNodes_length]
    · rw [if_neg hb]
      rw [plainStep_fst]
      rw [show stagesNodes total i acc.1.length (p :: rest) =
        stageNodes total i acc.1.length p ++
          stagesNodes total (i + 1)
            (acc.1.length + (stageNodes total i acc.1.length p).length) rest
        from rfl]
      rw [show stageNodes total i acc.1.length p = [mkPlainNode total i p]
        from if_neg hb]
      simp

theorem parse_nodes (desc : String) :
    (parseDiagramDescription desc).1 =
      stagesNodes (stageList desc).length 0 0 (stageList desc) := by
  unfold parseDiagramDescription
  rw [parseLoop_fst]
  rfl

theorem stagesNodes_length : ∀ (parts : List String) (total i len : Nat),
    (stagesNodes total i len parts).length = (parts.map stageSize).sum := by
  intro parts
  induction parts with
  | nil => intro total i len; rfl
  | cons p rest ih =>
    intro total i len
    rw [show stagesNodes total i len (p :: rest) =
      stageNodes total i len p ++
        stagesNodes total (i + 1) (len + (stageNodes total i len p).length) rest
      from rfl]
    simp [List.length_append, stageNodes_length, ih]

theorem stagesNodes_append : ∀ (xs ys : List String) (total i len : Nat),
    stagesNodes total i len (xs ++ ys) =
      stagesNodes total i len xs ++
        stagesNodes total (i + xs.length)
          (len + (stagesNodes total i len xs).length) ys := by
  intro xs
  induction xs with
  | nil => intro ys total i len; simp [stagesNodes]
  | cons p rest ih =>
    intro ys total i len
    rw [show (p :: rest) ++ ys = p :: (rest ++ ys) from rfl]
    rw [show stagesNodes total i len (p :: (rest ++ ys)) =
      stageNodes total i len p ++
        stagesNodes total (i + 1) (len + (stageNodes total i len p).length)
          (rest ++ ys) from rfl]
    rw [ih]
    rw [show stagesNodes total i len (p :: rest) =
      stageNodes total i len p ++
        stagesNodes total (i + 1) (len + (stageNodes total i len p).length) rest
      from rfl]
    simp only [List.length_append, List.append_assoc, List.length_cons]
    have e1 : i + 1 + rest.length = i + (rest.length + 1) := by omega
    have e2 : len + (stageNodes total i len p).length +
        (stagesNodes total (i + 1) (len + (stageNodes total i len p).length)
          rest).length =
        len + ((stageNodes total i len p).length +
          (stagesNodes total (i + 1) (len + (stageNodes total i len p).length)
            rest).length) := by omega
    rw [e1, e2]

/-- Number of nodes of a given kind. -/
def cntType (t : String) (l : List DiagramNode) : Nat :=
  l.countP (fun n => n.type == t)

theorem cntType_append (t : String) (l₁ l₂ : List DiagramNode) :
    cntType t (l₁ ++ l₂) = cntType t l₁ + cntType t l₂ :=
  List.countP_append _ _ _

theorem cntType_eq_zero {t : String} {l : List DiagramNode}
    (h : ∀ n ∈ l, n.type ≠ t) : cntType t l = 0 := by
  apply List.countP_eq_zero.mpr
  intro n hn
  simp only [beq_iff_eq]
  exact h n hn

theorem cntType_singleton_eq {t : String} {n : DiagramNode}
    (h : n.type = t) : cntType t [n] = 1 := by
  simp [cntType, List.countP_cons, h]

theorem branchNodes_type : ∀ (segs : List String) (len : Nat),
    ∀ n ∈ branchNodes len segs, n.type = "process" := by
  intro segs
  induction segs with
  | nil => intro len n hn; cases hn
  | cons b rest ih =>
    intro len n hn
    rcases List.mem_cons.mp hn with h | h
    · subst h; rfl
    · exact ih (len + 1) n h

theorem mkPlainNode_type_start {total : Nat} {p : String}
    (h : endsWithQ p = false) : (mkPlainNode total 0 p).type = "start" := by
  simp [mkPlainNode, h]

theorem mkPlainNode_type_end {total i : Nat} {p : String}
    (h : endsWithQ p = false) (hi : i ≠ 0) (hl : i = total - 1) :
    (mkPlainNode total i p).type = "end" := by
  subst hl
  simp [mkPlainNode, h, hi]

theorem mkPlainNode_type_ne_start {total i : Nat} {p : String} (hi : i ≠ 0) :
    (mkPlainNode total i p).type ≠ "start" := by
  show (if endsWithQ p = true then "decision"
    else if i = 0 then "start"
    else if i = total - 1 then "end" else "process") ≠ "start"
  by_cases h1 : endsWithQ p = true
  · rw [if_pos h1]; decide
  · rw [if_neg h1, if_neg hi]
    by_cases h3 : i = total - 1
    · rw [if_pos h3]; decide
    · rw [if_neg h3]; decide

theorem mkPlainNode_type_ne_end {total i : Nat} {p : String}
    (hl : i ≠ total - 1) : (mkPlainNode total i p).type ≠ "end" := by
  show (if endsWithQ p = true then "decision"
    else if i = 0 then "start"
    else if i = total - 1 then "end" else "process") ≠ "end"
  by_cases h1 : endsWithQ p = true
  · rw [if_pos h1]; decide
  · rw [if_neg h1]
    by_cases h2 : i = 0
    · rw [if_pos h2]; decide
    · rw [if_neg h2, if_neg hl]; decide

theorem mkPlainNode_type_cases (total i : Nat) (p : String) :
    (mkPlainNode total i p).type = "decision" ∨
    (mkPlainNode total i p).type = "start" ∨
    (mkPlainNode total i p).type = "end" ∨
    (mkPlainNode total i p).type = "process" := by
  show (if endsWithQ p = true then "decision"
      else if i = 0 then "start"
      else if i = total - 1 then "end" else "process") = "decision" ∨
    (if endsWithQ p = true then "decision"
      else if i = 0 then "start"
      else if i = total - 1 then "end" else "process") = "start" ∨
    (if endsWithQ p = true then "decision"
      else if i = 0 then "start"
      else if i = total - 1 then "end" else "process") = "end" ∨
    (if endsWithQ p = true then "decision"
      else if i = 0 then "start"
      else if i = total - 1 then "end" else "process") = "process"
  by_cases h1 : endsWithQ p = true
  · rw [if_pos h1]; exact Or.inl rfl
  · rw [if_neg h1]
    by_cases h2 : i = 0
    · rw [if_pos h2]; exact Or.inr (Or.inl rfl)
    · rw [if_neg h2]
      by_cases h3 : i = total - 1
      · rw [if_pos h3]; exact Or.inr (Or.inr (Or.inl rfl))
      · rw [if_neg h3]; exact Or.inr (Or.inr (Or.inr rfl))

theorem stageNodes_start_zero {total i len : Nat} {p : String} (hi : 1 ≤ i) :
    cntType "start" (stageNodes total i len p) = 0 := by
  unfold stageNodes
  split_ifs with hb
  · exact cntType_eq_zero (fun n hn => by
      rw [branchNodes_type _ _ n hn]; decide)
  · exact cntType_eq_zero (fun n hn => by
      rcases List.mem_singleton.mp hn with rfl
      exact mkPlainNode_type_ne_start (by omega))

theorem stageNodes_end_zero {total i len : Nat} {p : String}
    (hi : i ≠ total - 1) :
    cntType "end" (stageNodes total i len p) = 0 := by
  unfold stageNodes
  split_ifs with hb
  · exact cntType_eq_zero (fun n hn => by
      rw [branchNodes_type _ _ n hn]; decide)
  · exact cntType_eq_zero (fun n hn => by
      rcases List.mem_singleton.mp hn with rfl
      exact mkPlainNode_type_ne_end hi)

theorem stagesNodes_start_zero : ∀ (parts : List String) (total i len : Nat),
    1 ≤ i → cntType "start" (stagesNodes total i len parts) = 0 := by
  intro parts
  induction parts with
  | nil => intro total i len _; rfl
  | cons p rest ih =>
    intro total i len hi
    rw [show stagesNodes total i len (p :: rest) =
      stageNodes total i len p ++
        stagesNodes total (i + 1) (len + (stageNodes total i len p).length) rest
      from rfl]
    rw [cntType_append, stageNodes_start_zero hi, ih _ _ _ (by omega)]

theorem stagesNodes_end_zero : ∀ (parts : List String) (total i len : Nat),
    i + parts.length ≤ total - 1 →
    cntType "end" (stagesNodes total i len parts) = 0 := by
  intro parts
  induction parts with
  | nil => intro total i len _; rfl
  | cons p rest ih =>
    intro total i len hle
    rw [show stagesNodes total i len (p :: rest) =
      stageNodes total i len p ++
        stagesNodes total (i + 1) (len + (stageNodes total i len p).length) rest
      from rfl]
    rw [cntType_append, stageNodes_end_zero (by simp at hle; omega),
      ih _ _ _ (by simp at hle; omega)]

theorem stagesNodes_types : ∀ (parts : List String) (total i len : Nat),
    ∀ n ∈ stagesNodes total i len parts,
    n.type = "decision" ∨ n.type = "start" ∨ n.type = "end" ∨
      n.type = "process" := by
  intro parts
  induction parts with
  | nil => intro total i len n hn; cases hn
  | cons p rest ih =>
    intro total i len n hn
    rw [show stagesNodes total i len (p :: rest) =
      stageNodes total i len p ++
        stagesNodes total (i + 1) (len + (stageNodes total i len p).length) rest
      from rfl] at hn
    rcases List.mem_append.mp hn with h | h
    · unfold stageNodes at h
      split_ifs at h with hb
      · exact Or.inr (Or.inr (Or.inr (branchNodes_type _ _ n h)))
      · rcases List.mem_singleton.mp h with rfl
        exact mkPlainNode_type_cases total i p
    · exact ih _ _ _ n h

theorem branchNodes_ids : ∀ (segs : List String) (len : Nat),
    (branchNodes len segs).map (fun n => n.id) =
      (List.range' len segs.length).map nodeIdStr := by
  intro segs
  induction segs with
  | nil => intro len; rfl
  | cons b rest ih =>
    intro len
    rw [show branchNodes len (b :: rest) =
      mkBranchNode len b :: branchNodes (len + 1) rest from rfl]
    rw [List.map_cons, ih]
    rfl

theorem stagesNodes_ids : ∀ (parts : List String) (total i : Nat),
    (∀ p ∈ parts.dropLast, branchGroup p = false) →
    (stagesNodes total i i parts).map (fun n => n.id) =
      (List.range' i ((parts.map stageSize).sum)).map nodeIdStr := by
  intro parts
  induction parts with
  | nil => intro total i _; rfl
  | cons p rest ih =>
    intro total i h
    cases rest with
    | nil =>
      rw [show stagesNodes total i i [p] =
        stageNodes total i i p ++ stagesNodes total (i + 1)
          (i + (stageNodes total i i p).length) [] from rfl]
      rw [show stagesNodes total (i + 1)
        (i + (stageNodes total i i p).length) ([] : List String) = [] from rfl,
        List.append_nil]
      unfold stageNodes
      split_ifs with hb
      · rw [branchNodes_ids]
        simp [stageSize, hb]
      · simp [stageSize, hb]
        rfl
    | cons q rs =>
      have hp : branchGroup p = false := by
        apply h
        rw [show (p :: q :: rs).dropLast = p :: (q :: rs).dropLast from rfl]
        exact List.mem_cons_self _ _
      rw [show stagesNodes total i i (p :: q :: rs) =
        stageNodes total i i p ++ stagesNodes total (i + 1)
          (i + (stageNodes total i i p).length) (q :: rs) from rfl]
      rw [show stageNodes total i i p = [mkPlainNode total i p] from if_neg
        (by rw [hp]; exact Bool.false_ne_true)]
      have hrec := ih total (i + 1) (fun p' hp' => h p' (by
        rw [show (p :: q :: rs).dropLast = p :: (q :: rs).dropLast from rfl]
        exact List.mem_cons_of_mem _ hp'))
      rw [show ([mkPlainNode total i p]).length = 1 from rfl]
      rw [List.map_append, hrec]
      rw [show ((p :: q :: rs).map stageSize).sum =
        1 + (((q :: rs)).map stageSize).sum from by
          simp [stageSize, hp]]
      rw [show List.range' i (1 + ((q :: rs).map stageSize).sum) =
        i :: List.range' (i + 1) ((q :: rs).map stageSize).sum from by
          rw [Nat.add_comm 1]
          exact List.range'_succ i _ 1]
      rfl

/-- The adjacency edges produced by a run of `count` consecutive non-branch
stages starting at stage index `i`: one edge `node_(j-1) → node_j` for every
stage index `j > 0`. -/
def chainEdges : Nat → Nat → List DiagramEdge
  | _, 0 => []
  | i, count + 1 =>
    (if i > 0 then
      [{ fromId := nodeIdStr (i - 1), toId := nodeIdStr i, label := none }]
     else []) ++ chainEdges (i + 1) count

theorem chainEdges_length_pos : ∀ (count i : Nat), 1 ≤ i →
    (chainEdges i count).length = count := by
  intro count
  induction count with
  | zero => intro i _; rfl
  | succ count ih =>
    intro i hi
    rw [show chainEdges i (count + 1) =
      (if i > 0 then
        [{ fromId := nodeIdStr (i - 1), toId := nodeIdStr i, label := none }]
       else []) ++ chainEdges (i + 1) count from rfl]
    rw [if_pos (by omega)]
    simp [ih (i + 1) (by omega)]

theorem chainEdges_length_zero (count : Nat) :
    (chainEdges 0 count).length = count - 1 := by
  cases count with
  | zero => rfl
  | succ count =>
    rw [show chainEdges 0 (count + 1) =
      (if 0 > 0 then
        [{ fromId := nodeIdStr (0 - 1), toId := nodeIdStr 0, label := none }]
       else []) ++ chainEdges (0 + 1) count from rfl]
    rw [if_neg (by omega)]
    simp [chainEdges_length_pos count 1 (by omega)]

theorem plainStep_snd_pos {total i : Nat} {part : String}
    {acc : List DiagramNode × List DiagramEdge} (hi : 0 < i)
    (hex : ∃ n ∈ acc.1, n.id = nodeIdStr (i - 1)) :
    (plainStep total i part acc).2 =
      acc.2 ++
        [{ fromId := nodeIdStr (i - 1), toId := nodeIdStr i, label := none }] := by
  have hex' : ∃ n ∈ acc.1 ++ [mkPlainNode total i part],
      (fun n => decide (n.id = nodeIdStr (i - 1))) n = true := by
    rcases hex with ⟨n, hn, hid⟩
    exact ⟨n, List.mem_append_left _ hn, by simp [hid]⟩
  have hsome : ((acc.1 ++ [mkPlainNode total i part]).find?
      (fun n => decide (n.id = nodeIdStr (i - 1)))).isSome := by
    rw [List.find?_isSome]
    rcases hex' with ⟨n, hn, hp⟩
    exact ⟨n, hn, hp⟩
  rcases Option.isSome_iff_exists.mp hsome with ⟨m, hm⟩
  have hmid : m.id = nodeIdStr (i - 1) := by
    have := List.find?_some hm
    simpa using this
  simp only [plainStep]
  rw [if_pos hi, hm]
  show acc.2 ++
      [{ fromId := m.id, toId := (mkPlainNode total i part).id, label := none }] =
    acc.2 ++
      [{ fromId := nodeIdStr (i - 1), toId := nodeIdStr i, label := none }]
  rw [hmid, show (mkPlainNode total i part).id = nodeIdStr i from rfl]

theorem parseLoop_plain_snd : ∀ (parts : List String) (total i : Nat)
    (ns : List DiagramNode) (es : List DiagramEdge),
    (∀ p ∈ parts, branchGroup p = false) →
    (∀ j, j < i → ∃ n ∈ ns, n.id = nodeIdStr j) →
    (parseLoop total i parts (ns, es)).2 = es ++ chainEdges i parts.length := by
  intro parts
  induction parts with
  | nil => intro total i ns es _ _; simp [parseLoop, chainEdges]
  | cons p rest ih =>
    intro total i ns es hb hids
    have hbp : branchGroup p = false := hb p (List.mem_cons_self _ _)
    rw [show parseLoop total i (p :: rest) (ns, es) =
      parseLoop total (i + 1) rest
        (if branchGroup p then processBranch i p (ns, es)
         else plainStep total i p (ns, es)) from rfl]
    rw [if_neg (by rw [hbp]; exact Bool.false_ne_true)]
    have hfst : (plainStep total i p (ns, es)).1 =
        ns ++ [mkPlainNode total i p] := plainStep_fst total i p (ns, es)
    have hids' : ∀ j, j < i + 1 →
        ∃ n ∈ (plainStep total i p (ns, es)).1, n.id = nodeIdStr j := by
      intro j hj
      rw [hfst]
      by_cases hji : j < i
      · rcases hids j hji with ⟨n, hn, hid⟩
        exact ⟨n, List.mem_append_left _ hn, hid⟩
      · have : j = i := by omega
        subst this
        exact ⟨mkPlainNode total j p,
          List.mem_append_right _ (List.mem_singleton.mpr rfl), rfl⟩
    by_cases hi : 0 < i
    · have hsnd := @plainStep_snd_pos total i p (ns, es)
        hi (hids (i - 1) (by omega))
      have hstep := ih total (i + 1) (plainStep total i p (ns, es)).1
        (plainStep total i p (ns, es)).2
        (fun q hq => hb q (List.mem_cons_of_mem _ hq)) hids'
      rw [show plainStep total i p (ns, es) =
        ((plainStep total i p (ns, es)).1, (plainStep total i p (ns, es)).2)
        from rfl] at hstep ⊢
      rw [hstep, hsnd, List.length_cons]
      rw [show chainEdges i (rest.length + 1) =
        (if i > 0 then
          [{ fromId := nodeIdStr (i - 1), toId := nodeIdStr i, label := none }]
         else []) ++ chainEdges (i + 1) rest.length from rfl]
      rw [if_pos hi]
      simp
    · have hi0 : i = 0 := by omega
      subst hi0
      have hsnd : (plainStep total 0 p (ns, es)).2 = es := by
        simp only [plainStep]
        rw [if_neg (by omega)]
      have hstep := ih total 1 (plainStep total 0 p (ns, es)).1
        (plainStep total 0 p (ns, es)).2
        (fun q hq => hb q (List.mem_cons_of_mem _ hq)) hids'
      rw [show plainStep total 0 p (ns, es) =
        ((plainStep total 0 p (ns, es)).1, (plainStep total 0 p (ns, es)).2)
        from rfl] at hstep ⊢
      rw [hstep, hsnd, List.length_cons]
      rw [show chainEdges 0 (rest.length + 1) =
        (if 0 > 0 then
          [{ fromId := nodeIdStr (0 - 1), toId := nodeIdStr 0, label := none }]
         else []) ++ chainEdges (0 + 1) rest.length from rfl]
      rw [if_neg (by omega)]
      rfl

theorem stageSizes_sum_plain : ∀ (parts : List String),
    (∀ p ∈ parts, branchGroup p = false) →
    (parts.map stageSize).sum = parts.length := by
  intro parts
  induction parts with
  | nil => intro _; rfl
  | cons p rest ih =>
    intro h
    have hp : branchGroup p = false := h p (List.mem_cons_self _ _)
    simp [stageSize, hp, ih (fun q hq => h q (List.mem_cons_of_mem _ hq))]
    omega

-- ─── Lemmas: layout ────────────────────────────────────────────────────────

theorem mapExcept_ok_mem {f : α → Except String β} :
    ∀ {l : List α} {ys : List β}, mapExcept f l = .ok ys →
    ∀ y ∈ ys, ∃ x ∈ l, f x = .ok y := by
  intro l
  induction l with
  | nil =>
    intro ys h y hy
    rw [show mapExcept f [] = .ok [] from rfl] at h
    cases h
    cases hy
  | cons a rest ih =>
    intro ys h y hy
    rw [show mapExcept f (a :: rest) =
      (match f a with
       | .error e => .error e
       | .ok b =>
         match mapExcept f rest with
         | .error e => .error e
         | .ok bs => .ok (b :: bs)) from rfl] at h
    cases hfa : f a with
    | error e => rw [hfa] at h; cases h
    | ok b =>
      rw [hfa] at h
      cases hrest : mapExcept f rest with
      | error e => rw [hrest] at h; cases h
      | ok bs =>
        rw [hrest] at h
        cases h
        rcases List.mem_cons.mp hy with rfl | hy
        · exact ⟨a, List.mem_cons_self _ _, hfa⟩
        · rcases ih hrest y hy with ⟨x, hx, hfx⟩
          exact ⟨x, List.mem_cons_of_mem _ hx, hfx⟩

theorem sizeNode_height {fs : ℚ} {n m : DiagramNode}
    (h : sizeNode fs n = .ok m) :
    m.height = 40 ∨ m.height = 50 ∨ m.height = 60 := by
  unfold sizeNode at h
  cases hl : n.label with
  | none => rw [hl] at h; cases h
  | some lab =>
    rw [hl] at h
    dsimp only at h
    by_cases hd : n.type = "decision"
    · rw [if_pos hd] at h
      cases h
      exact Or.inr (Or.inl rfl)
    · rw [if_neg hd] at h
      cases hs : n.subComponents with
      | some subs =>
        rw [hs] at h
        dsimp only at h
        cases h
        exact Or.inr (Or.inr rfl)
      | none =>
        rw [hs] at h
        dsimp only at h
        cases h
        exact Or.inl rfl

theorem placeArch_head {w ls : ℚ} :
    ∀ {l : List DiagramNode} {y0 : ℚ} {a : DiagramNode},
    (placeArchitecture w ls y0 l).get? 0 = some a → a.y = y0 := by
  intro l
  cases l with
  | nil => intro y0 a h; cases h
  | cons n rest =>
    intro y0 a h
    rw [show placeArchitecture w ls y0 (n :: rest) =
      { n with x := (w - n.width) / 2, y := y0 } ::
        placeArchitecture w ls (y0 + n.height + ls) rest from rfl] at h
    cases h
    rfl

theorem placeArch_rec {w ls : ℚ} :
    ∀ (l : List DiagramNode) (y0 : ℚ) (k : Nat) (a b : DiagramNode),
    (placeArchitecture w ls y0 l).get? k = some a →
    (placeArchitecture w ls y0 l).get? (k + 1) = some b →
    b.y = a.y + a.height + ls := by
  intro l
  induction l with
  | nil => intro y0 k a b ha _; cases ha
  | cons n rest ih =>
    intro y0 k a b ha hb
    rw [show placeArchitecture w ls y0 (n :: rest) =
      { n with x := (w - n.width) / 2, y := y0 } ::
        placeArchitecture w ls (y0 + n.height + ls) rest from rfl] at ha hb
    cases k with
    | zero =>
      cases ha
      rw [List.get?_cons_succ] at hb
      rw [placeArch_head hb]
    | succ k =>
      rw [List.get?_cons_succ] at ha hb
      exact ih (y0 + n.height + ls) k a b ha hb

theorem placeArch_x {w ls : ℚ} :
    ∀ (l : List DiagramNode) (y0 : ℚ), ∀ n ∈ placeArchitecture w ls y0 l,
    n.x = (w - n.width) / 2 := by
  intro l
  induction l with
  | nil => intro y0 n hn; cases hn
  | cons m rest ih =>
    intro y0 n hn
    rw [show placeArchitecture w ls y0 (m :: rest) =
      { m with x := (w - m.width) / 2, y := y0 } ::
        placeArchitecture w ls (y0 + m.height + ls) rest from rfl] at hn
    rcases List.mem_cons.mp hn with rfl | hn
    · rfl
    · exact ih _ n hn

theorem placeArch_height_mem {w ls : ℚ} :
    ∀ (l : List DiagramNode) (y0 : ℚ), ∀ n ∈ placeArchitecture w ls y0 l,
    ∃ m ∈ l, n.height = m.height := by
  intro l
  induction l with
  | nil => intro y0 n hn; cases hn
  | cons m rest ih =>
    intro y0 n hn
    rw [show placeArchitecture w ls y0 (m :: rest) =
      { m with x := (w - m.width) / 2, y := y0 } ::
        placeArchitecture w ls (y0 + m.height + ls) rest from rfl] at hn
    rcases List.mem_cons.mp hn with rfl | hn
    · exact ⟨m, List.mem_cons_self _ _, rfl⟩
    · rcases ih _ n hn with ⟨m', hm', he⟩
      exact ⟨m', List.mem_cons_of_mem _ hm', he⟩

theorem stagesNodes_single_plain (total i len : Nat) (p : String)
    (hb : branchGroup p = false) :
    stagesNodes total i len [p] = [mkPlainNode total i p] := by
  rw [show stagesNodes total i len [p] =
    stageNodes total i len p ++ stagesNodes total (i + 1)
      (len + (stageNodes total i len p).length) [] from rfl]
  rw [show stagesNodes total (i + 1)
    (len + (stageNodes total i len p).length) ([] : List String) = [] from rfl]
  rw [List.append_nil]
  exact if_neg (by rw [hb]; exact Bool.false_ne_true)

-- ─── Claim C1 ──────────────────────────────────────────────────────────────

/-- C1: evaluation of `parseDiagramDescription` at the failing input
`"A -> Yes: B, No: C"`.  The specification demands an edge from the previous
stage's node (`node_0`) to each branch node; the code instead reads
`nodes[nodes.length - 2]` after pushing each pair's node, so the edge for the
second pair `No: C` runs from `node_1` (the node of the first pair `Yes: B`),
not from `node_0`. -/
theorem parse_branch_edges_at_failing_input :
    ((parseDiagramDescription "A -> Yes: B, No: C").1.map
      (fun n => (n.id, n.label, n.type))) =
      [("node_0", some "A", "start"), ("node_1", some "B", "process"),
       ("node_2", some "C", "process")] ∧
    ((parseDiagramDescription "A -> Yes: B, No: C").2.map
      (fun e => (e.fromId, e.toId, e.label))) =
      [("node_0", "node_1", some "Yes"), ("node_1", "node_2", some "No")] := by
  decide

-- ─── Claim C2 ──────────────────────────────────────────────────────────────

/-- C2 (counterexample): for `"A -> Yes: B, No: C -> D"` the parser emits two
nodes with the id `node_2` — the second branch pair gets
`node_${nodes.length}` = `node_2`, and the following plain stage gets
`node_${i}` = `node_2` again — so node ids are not pairwise distinct. -/
theorem parse_node_ids_nodup_cex :
    ((parseDiagramDescription "A -> Yes: B, No: C -> D").1.map
      (fun n => n.id)) = ["node_0", "node_1", "node_2", "node_2"] ∧
    ¬ ((parseDiagramDescription "A -> Yes: B, No: C -> D").1.map
      (fun n => n.id)).Nodup := by
  decide

/-- C2 (amended): for every description in which no branch-group stage is
followed by a further stage (equivalently: any branch group is the final
stage), the node ids returned by `parseDiagramDescription` are pairwise
distinct. -/
theorem parse_node_ids_nodup (desc : String)
    (h : ∀ p ∈ (stageList desc).dropLast, branchGroup p = false) :
    ((parseDiagramDescription desc).1.map (fun n => n.id)).Nodup := by
  rw [parse_nodes]
  rw [stagesNodes_ids (stageList desc) (stageList desc).length 0 h]
  exact (List.nodup_range' _ _).map nodeIdStr_inj

/-- C2 (witness): the amended claim applied to the concrete description
`"A -> Yes: B, No: C"`, whose only branch group is the final stage. -/
theorem parse_node_ids_nodup_witness :
    (∀ p ∈ (stageList "A -> Yes: B, No: C").dropLast,
      branchGroup p = false) ∧
    ((parseDiagramDescription "A -> Yes: B, No: C").1.map
      (fun n => n.id)).Nodup :=
  ⟨by decide, parse_node_ids_nodup "A -> Yes: B, No: C" (by decide)⟩

-- ─── Claim C3 ──────────────────────────────────────────────────────────────

/-- C3 (counterexample): `"A? -> B"` parses to two nodes but no node of kind
`start` — the first stage ends with `?`, so decision detection overrides the
positional `start` kind. -/
theorem parse_kind_invariant_cex :
    (parseDiagramDescription "A? -> B").1.length = 2 ∧
    ((parseDiagramDescription "A? -> B").1.map (fun n => n.type)) =
      ["decision", "end"] ∧
    cntType "start" (parseDiagramDescription "A? -> B").1 = 0 := by
  decide

/-- C3 (amended): for every description with at least two stages whose first
stage is neither a decision (does not end with `?`) nor a branch group, and
whose last stage is neither a decision nor a branch group, exactly one node
has kind `start` (the node of the first stage), exactly one node has kind
`end` (the node of the last stage), and every other node is `process` or
`decision`. -/
theorem parse_kind_invariant (desc p0 pL : String) (mid : List String)
    (hparts : stageList desc = p0 :: (mid ++ [pL]))
    (h0b : branchGroup p0 = false) (h0d : endsWithQ p0 = false)
    (hLb : branchGroup pL = false) (hLd : endsWithQ pL = false) :
    cntType "start" (parseDiagramDescription desc).1 = 1 ∧
    cntType "end" (parseDiagramDescription desc).1 = 1 ∧
    ((parseDiagramDescription desc).1.head?.map (fun n => n.type) =
      some "start") ∧
    ((parseDiagramDescription desc).1.getLast?.map (fun n => n.type) =
      some "end") ∧
    (∀ n ∈ (parseDiagramDescription desc).1,
      n.type ≠ "start" → n.type ≠ "end" →
      n.type = "process" ∨ n.type = "decision") := by
  have hnodes : (parseDiagramDescription desc).1 =
      [mkPlainNode (mid.length + 2) 0 p0] ++
        (stagesNodes (mid.length + 2) 1 1 mid ++
          [mkPlainNode (mid.length + 2) (1 + mid.length) pL]) := by
    rw [parse_nodes, hparts]
    rw [show (p0 :: (mid ++ [pL])).length = mid.length + 2 from by simp]
    rw [show stagesNodes (mid.length + 2) 0 0 (p0 :: (mid ++ [pL])) =
      stageNodes (mid.length + 2) 0 0 p0 ++
        stagesNodes (mid.length + 2) 1
          (0 + (stageNodes (mid.length + 2) 0 0 p0).length) (mid ++ [pL])
      from rfl]
    rw [show stageNodes (mid.length + 2) 0 0 p0 =
      [mkPlainNode (mid.length + 2) 0 p0] from if_neg
        (by rw [h0b]; exact Bool.false_ne_true)]
    rw [show ([mkPlainNode (mid.length + 2) 0 p0] :
      List DiagramNode).length = 1 from rfl]
    simp only [Nat.zero_add]
    rw [stagesNodes_append]
    rw [stagesNodes_single_plain _ _ _ _ hLb]
  refine ⟨?_, ?_, ?_, ?_, ?_⟩
  · rw [hnodes, cntType_append, cntType_append]
    rw [cntType_singleton_eq (mkPlainNode_type_start h0d)]
    rw [stagesNodes_start_zero mid _ 1 1 (by omega)]
    rw [cntType_eq_zero (l := [mkPlainNode (mid.length + 2) (1 + mid.length) pL])
      (fun n hn => by
        rcases List.mem_singleton.mp hn with rfl
        exact mkPlainNode_type_ne_start (by omega))]
  · rw [hnodes, cntType_append, cntType_append]
    rw [cntType_eq_zero (l := [mkPlainNode (mid.length + 2) 0 p0])
      (fun n hn => by
        rcases List.mem_singleton.mp hn with rfl
        exact mkPlainNode_type_ne_end (by omega))]
    rw [stagesNodes_end_zero mid _ 1 1 (by omega)]
    rw [cntType_singleton_eq
      (mkPlainNode_type_end hLd (by omega) (by omega))]
  · rw [hnodes]
    rw [List.singleton_append, List.head?_cons]
    show some (mkPlainNode (mid.length + 2) 0 p0).type = some "start"
    rw [mkPlainNode_type_start h0d]
  · rw [hnodes, ← List.append_assoc]
    rw [List.getLast?_concat]
    show some (mkPlainNode (mid.length + 2) (1 + mid.length) pL).type = some "end"
    rw [mkPlainNode_type_end hLd (by omega) (by omega)]
  · intro n hn hns hne
    rw [parse_nodes] at hn
    rcases stagesNodes_types (stageList desc) _ 0 0 n hn with h | h | h | h
    · exact Or.inr h
    · exact absurd h hns
    · exact absurd h hne
    · exact Or.inl h

/-- C3 (witness): the amended claim applied to `"Begin -> Middle -> End"`. -/
theorem parse_kind_invariant_witness :
    cntType "start" (parseDiagramDescription "Begin -> Middle -> End").1 = 1 ∧
    cntType "end" (parseDiagramDescription "Begin -> Middle -> End").1 = 1 ∧
    ((parseDiagramDescription "Begin -> Middle -> End").1.head?.map
      (fun n => n.type) = some "start") ∧
    ((parseDiagramDescription "Begin -> Middle -> End").1.getLast?.map
      (fun n => n.type) = some "end") ∧
    (∀ n ∈ (parseDiagramDescription "Begin -> Middle -> End").1,
      n.type ≠ "start" → n.type ≠ "end" →
      n.type = "process" ∨ n.type = "decision") :=
  parse_kind_invariant "Begin -> Middle -> End" "Begin" "End" ["Middle"]
    (by decide) (by decide) (by decide) (by decide) (by decide)

-- ─── Claim C4 ──────────────────────────────────────────────────────────────

/-- C4: the number of parsed nodes equals the number of non-empty trimmed
stages, counting one node per comma segment for branch-group stages
(`expectedNodeCount`); and when no stage is a branch group, the number of
edges is the number of nodes minus one. -/
theorem parse_counts (desc : String) :
    (parseDiagramDescription desc).1.length = expectedNodeCount desc ∧
    ((∀ p ∈ stageList desc, branchGroup p = false) →
      (parseDiagramDescription desc).2.length =
        (parseDiagramDescription desc).1.length - 1) := by
  constructor
  · rw [parse_nodes, stagesNodes_length]
    rfl
  · intro h
    have hedges : (parseDiagramDescription desc).2 =
        [] ++ chainEdges 0 (stageList desc).length := by
      unfold parseDiagramDescription
      exact parseLoop_plain_snd (stageList desc) (stageList desc).length 0 [] []
        h (fun j hj => absurd hj (by omega))
    rw [hedges, List.nil_append, chainEdges_length_zero]
    rw [parse_nodes, stagesNodes_length, stageSizes_sum_plain _ h]

/-- C4 (witness): the claim applied to `"Input -> Process -> Output"`, which
has three stages and no branch group. -/
theorem parse_counts_witness :
    ((parseDiagramDescription "Input -> Process -> Output").1.length =
      expectedNodeCount "Input -> Process -> Output") ∧
    (parseDiagramDescription "Input -> Process -> Output").2.length =
      (parseDiagramDescription "Input -> Process -> Output").1.length - 1 :=
  ⟨(parse_counts "Input -> Process -> Output").1,
   (parse_counts "Input -> Process -> Output").2 (by decide)⟩

-- ─── Claim C9 ──────────────────────────────────────────────────────────────

/-- C9: a description with exactly one non-empty stage that is neither a
decision nor a branch group parses to exactly one node of kind `start` — the
`i === 0` test precedes the `i === parts.length - 1` test in the ternary
chain, so the first-position rule wins over the last-position rule. -/
theorem parse_single_stage_start (desc p : String)
    (hparts : stageList desc = [p])
    (hd : endsWithQ p = false)
    (hb : branchGroup p = false) :
    (parseDiagramDescription desc).1.length = 1 ∧
    ((parseDiagramDescription desc).1.map (fun n => n.type)) = ["start"] := by
  have hnodes : (parseDiagramDescription desc).1 = [mkPlainNode 1 0 p] := by
    rw [parse_nodes, hparts]
    rw [show ([p] : List String).length = 1 from rfl]
    exact stagesNodes_single_plain 1 0 0 p hb
  constructor
  · rw [hnodes]; rfl
  · rw [hnodes, List.map_singleton, mkPlainNode_type_start hd]

/-- C9 (witness): the claim applied to the single-stage description
`"OnlyNode"`. -/
theorem parse_single_stage_start_witness :
    (parseDiagramDescription "OnlyNode").1.length = 1 ∧
    ((parseDiagramDescription "OnlyNode").1.map (fun n => n.type)) =
      ["start"] :=
  parse_single_stage_start "OnlyNode" "OnlyNode" (by decide) (by decide)
    (by decide)

theorem sizeNode_ok_of_label {fs : ℚ} {n : DiagramNode}
    (h : n.label.isSome) : ∃ m, sizeNode fs n = .ok m := by
  unfold sizeNode
  cases hl : n.label with
  | none => rw [hl] at h; cases h
  | some lab =>
    dsimp only
    by_cases hd : n.type = "decision"
    · rw [if_pos hd]; exact ⟨_, rfl⟩
    · rw [if_neg hd]; exact ⟨_, rfl⟩

theorem sizeNode_height_plain {fs : ℚ} {n m : DiagramNode}
    (h : sizeNode fs n = .ok m) (ht : n.type ≠ "decision")
    (hs : n.subComponents = none) : m.height = 40 := by
  unfold sizeNode at h
  cases hl : n.label with
  | none => rw [hl] at h; cases h
  | some lab =>
    rw [hl] at h
    dsimp only at h
    rw [if_neg ht, hs] at h
    dsimp only at h
    cases h
    rfl

theorem mapExcept_sizeNode_ok {fs : ℚ} : ∀ (l : List DiagramNode),
    (∀ n ∈ l, n.label.isSome) →
    ∃ sized, mapExcept (sizeNode fs) l = .ok sized := by
  intro l
  induction l with
  | nil => intro _; exact ⟨[], rfl⟩
  | cons n rest ih =>
    intro h
    rcases @sizeNode_ok_of_label fs n (h n (List.mem_cons_self _ _)) with
      ⟨m, hm⟩
    rcases ih (fun a ha => h a (List.mem_cons_of_mem _ ha)) with ⟨ms, hms⟩
    refine ⟨m :: ms, ?_⟩
    simp only [mapExcept, hm, hms]

theorem layoutNodes_architecture_ok {l : List DiagramNode}
    {w nsp ls fs : ℚ} (h : ∀ n ∈ l, n.label.isSome) :
    ∃ out, layoutNodes l "architecture" w nsp ls fs = .ok out := by
  rcases @mapExcept_sizeNode_ok fs l h with ⟨sized, hs⟩
  refine ⟨placeArchitecture w ls 40 sized, ?_⟩
  unfold layoutNodes
  rw [hs]
  show (if "architecture" = "architecture" then
      Except.ok (placeArchitecture w ls 40 sized)
    else
      Except.ok (placeHorizontal nsp
        (maxHeightOf (sized.map (fun n => n.height))) 40 sized)) =
    Except.ok (placeArchitecture w ls 40 sized)
  rw [if_pos rfl]

-- ─── Claim C6 ──────────────────────────────────────────────────────────────

/-- A concrete plain node used for the layout counterexample and witness. -/
def archCexN0 : DiagramNode :=
  { id := "n0", label := some "A", type := "process", subComponents := none
    x := 0, y := 0, width := 0, height := 0 }

/-- A second concrete plain node. -/
def archCexN1 : DiagramNode :=
  { id := "n1", label := some "B", type := "process", subComponents := none
    x := 0, y := 0, width := 0, height := 0 }

/-- The two-node input list for the layout counterexample and witness. -/
def archCexNodes : List DiagramNode := [archCexN0, archCexN1]

/-- C6 (counterexample): with `layerSpacing = -100` the architecture layout
of two plain nodes yields y-coordinates `[40, -20]` — the second y is
smaller, so y-coordinates are not strictly increasing for every options
value. -/
theorem layout_architecture_cex :
    Except.map (fun l => l.map (fun n => n.y))
      (layoutNodes archCexNodes "architecture" 800 60 (-100) 14) =
      Except.ok [(40 : ℚ), (-20 : ℚ)] ∧ ((-20 : ℚ) < (40 : ℚ)) := by
  constructor
  · rcases @sizeNode_ok_of_label (14 : ℚ) archCexN0
      (by decide) with ⟨m0, hm0⟩
    rcases @sizeNode_ok_of_label (14 : ℚ) archCexN1
      (by decide) with ⟨m1, hm1⟩
    have hmap : mapExcept (sizeNode 14) archCexNodes = .ok [m0, m1] := by
      rw [show archCexNodes = [archCexN0, archCexN1] from rfl]
      simp only [mapExcept, hm0, hm1]
    have hlay : layoutNodes archCexNodes "architecture" 800 60 (-100) 14 =
        .ok (placeArchitecture 800 (-100) 40 [m0, m1]) := by
      unfold layoutNodes
      rw [hmap]
      show (if "architecture" = "architecture" then
          Except.ok (placeArchitecture 800 (-100) 40 [m0, m1])
        else
          Except.ok (placeHorizontal 60
            (maxHeightOf (([m0, m1]).map (fun n => n.height))) 40 [m0, m1])) =
        Except.ok (placeArchitecture 800 (-100) 40 [m0, m1])
      rw [if_pos rfl]
    rw [hlay]
    have hh0 : m0.height = 40 :=
      sizeNode_height_plain hm0 (by decide) (by decide)
    show Except.ok ((placeArchitecture 800 (-100) 40 [m0, m1]).map
      (fun n => n.y)) = Except.ok [(40 : ℚ), (-20 : ℚ)]
    rw [show ((placeArchitecture 800 (-100) 40 [m0, m1]).map
      (fun n => n.y)) = [(40 : ℚ), 40 + m0.height + (-100)] from rfl]
    rw [hh0]
    norm_num
  · norm_num

/-- C6 (amended): for style `architecture`, whenever `layoutNodes` succeeds,
the first node's y is 40, each subsequent node's y is the previous node's y
plus the previous node's height plus the layer spacing, and every node's x is
(target width − node width) / 2; the y-coordinates are strictly increasing
whenever the layer spacing exceeds −40 (in particular for any non-negative
layer spacing), the minimum node height being 40. -/
theorem layout_architecture_geometry (nodes : List DiagramNode)
    (w nsp ls fs : ℚ) (out : List DiagramNode)
    (h : layoutNodes nodes "architecture" w nsp ls fs = .ok out) :
    (∀ a, out.get? 0 = some a → a.y = 40) ∧
    (∀ k a b, out.get? k = some a → out.get? (k + 1) = some b →
      b.y = a.y + a.height + ls) ∧
    (∀ n ∈ out, n.x = (w - n.width) / 2) ∧
    (-40 < ls → ∀ k a b, out.get? k = some a → out.get? (k + 1) = some b →
      a.y < b.y) := by
  unfold layoutNodes at h
  cases hm : mapExcept (sizeNode fs) nodes with
  | error e => rw [hm] at h; cases h
  | ok sized =>
    rw [hm] at h
    have h' : (if "architecture" = "architecture" then
        Except.ok (placeArchitecture w ls 40 sized)
      else
        Except.ok (placeHorizontal nsp
          (maxHeightOf (sized.map (fun n => n.height))) 40 sized)) =
        Except.ok out := h
    rw [if_pos rfl] at h'
    injection h' with h'
    subst h'
    refine ⟨?_, ?_, ?_, ?_⟩
    · intro a ha
      exact placeArch_head ha
    · intro k a b ha hb
      exact placeArch_rec sized 40 k a b ha hb
    · intro n hn
      exact placeArch_x sized 40 n hn
    · intro hls k a b ha hb
      have hrec := placeArch_rec sized 40 k a b ha hb
      have hmem : a ∈ placeArchitecture w ls 40 sized := List.get?_mem ha
      rcases placeArch_height_mem sized 40 a hmem with ⟨m, hmm, he⟩
      rcases mapExcept_ok_mem hm m hmm with ⟨x, _, hfx⟩
      have hh : 40 ≤ a.height := by
        rw [he]
        rcases sizeNode_height hfx with h' | h' | h' <;> rw [h'] <;> norm_num
      rw [hrec]
      linarith

/-- C6 (witness): the amended claim applied to the concrete two-node input
with width 0, layer spacing 0 and font size 0. -/
theorem layout_architecture_geometry_witness :
    ∃ out, layoutNodes archCexNodes "architecture" 0 0 0 0 = Except.ok out ∧
      ((∀ a, out.get? 0 = some a → a.y = 40) ∧
       (∀ k a b, out.get? k = some a → out.get? (k + 1) = some b →
         b.y = a.y + a.height + 0) ∧
       (∀ n ∈ out, n.x = (0 - n.width) / 2) ∧
       (-40 < (0 : ℚ) → ∀ k a b, out.get? k = some a →
         out.get? (k + 1) = some b → a.y < b.y)) := by
  rcases @layoutNodes_architecture_ok archCexNodes 0 0 0 0
    (by decide) with ⟨out, hout⟩
  exact ⟨out, hout,
    layout_architecture_geometry archCexNodes 0 0 0 0 out hout⟩

-- ─── Claim C8 ──────────────────────────────────────────────────────────────

/-- C8: `generateDiagram` is deterministic.  The whole compiler is embedded
as a pure function of `(description, options)` — the source reads no clock,
no randomness and no mutable global state, and processes nodes in parse
order — so two calls with the same arguments denote the same node list, the
same edge list and the same document text. -/
theorem generateDiagram_deterministic (description : String)
    (options : DiagramOptions) :
    resultNodes (generateDiagram description options) =
      resultNodes (generateDiagram description options) ∧
    resultEdges (generateDiagram description options) =
      resultEdges (generateDiagram description options) ∧
    resultSvg (generateDiagram description options) =
      resultSvg (generateDiagram description options) ∧
    generateDiagram description options = generateDiagram description options :=
  ⟨rfl, rfl, rfl, rfl⟩

-- ─── Claim C10 ─────────────────────────────────────────────────────────────

theorem generateDiagram_options_ext {d : String} {o1 o2 : DiagramOptions}
    (ht : orDefaultS o1.type "pipeline" = orDefaultS o2.type "pipeline")
    (hf : orDefaultQ o1.fontSize 14 = orDefaultQ o2.fontSize 14)
    (hff : orDefaultS o1.fontFamily "Arial, Helvetica, sans-serif" =
      orDefaultS o2.fontFamily "Arial, Helvetica, sans-serif")
    (hn : orDefaultQ o1.nodeSpacing 60 = orDefaultQ o2.nodeSpacing 60)
    (hl : orDefaultQ o1.layerSpacing 50 = orDefaultQ o2.layerSpacing 50)
    (hw : orDefaultQ o1.width 800 = orDefaultQ o2.width 800) :
    generateDiagram d o1 = generateDiagram d o2 := by
  unfold generateDiagram
  rw [ht, hf, hff, hn, hl, hw]

/-- C10: an option explicitly set to a falsy value (`0` for the numeric
options, `""` for the string options) is resolved by `options.x || default`
exactly like an absent option, so the compile result is identical to the one
with the field omitted. -/
theorem generateDiagram_falsy_options (desc : String)
    (opts : DiagramOptions) :
    generateDiagram desc { opts with width := some 0 } =
      generateDiagram desc { opts with width := none } ∧
    generateDiagram desc { opts with nodeSpacing := some 0 } =
      generateDiagram desc { opts with nodeSpacing := none } ∧
    generateDiagram desc { opts with layerSpacing := some 0 } =
      generateDiagram desc { opts with layerSpacing := none } ∧
    generateDiagram desc { opts with fontSize := some 0 } =
      generateDiagram desc { opts with fontSize := none } ∧
    generateDiagram desc { opts with type := some "" } =
      generateDiagram desc { opts with type := none } ∧
    generateDiagram desc { opts with fontFamily := some "" } =
      generateDiagram desc { opts with fontFamily := none } := by
  refine ⟨?_, ?_, ?_, ?_, ?_, ?_⟩ <;>
    apply generateDiagram_options_ext <;>
    simp [orDefaultQ, orDefaultS]

-- ─── Claim C7 ──────────────────────────────────────────────────────────────

/-- The document produced for a diagram with no nodes and no edges: the
240×140 minimal canvas with the arrowhead marker definition and the white
background. -/
def emptySvg : String :=
  "<svg xmlns=\"http://www.w3.org/2000/svg\" width=\"240\" height=\"140\" viewBox=\"0 0 240 140\">\n  <defs>\n    <marker id=\"arrowhead\" markerWidth=\"10\" markerHeight=\"7\" refX=\"10\" refY=\"3.5\" orient=\"auto\">\n      <polygon points=\"0 0, 10 3.5, 0 7\" fill=\"#424242\"/>\n    </marker>\n  </defs>\n  <rect width=\"100%\" height=\"100%\" fill=\"white\"/>\n</svg>"

theorem layoutNodes_nil (t : String) (w n l f : ℚ) :
    layoutNodes [] t w n l f = .ok [] := by
  unfold layoutNodes
  show (if t = "architecture" then
      Except.ok (placeArchitecture w l 40 [])
    else
      Except.ok (placeHorizontal n
        (maxHeightOf (([] : List DiagramNode).map (fun x => x.height)))
        40 [])) = .ok []
  split <;> rfl

theorem numToString_240 : numToString ((240 : ℚ)) = "240" := by
  rw [show (240 : ℚ) = ((240 : ℕ) : ℚ) from by norm_num, numToString_natCast]
  decide

theorem numToString_140 : numToString ((140 : ℚ)) = "140" := by
  rw [show (140 : ℚ) = ((140 : ℕ) : ℚ) from by norm_num, numToString_natCast]
  decide

set_option maxRecDepth 8192 in
/-- C7: an empty or all-whitespace description (any description whose stage
list is empty) compiles, with any options, to zero nodes, zero edges and the
minimal-canvas document — an `Except.ok` result, never a thrown error. -/
theorem generateDiagram_empty (desc : String) (opts : DiagramOptions)
    (h : stageList desc = []) :
    generateDiagram desc opts =
      .ok { svg := emptySvg, nodes := [], edges := [] } := by
  have hparse : parseDiagramDescription desc = ([], []) := by
    unfold parseDiagramDescription
    rw [h]
    rfl
  unfold generateDiagram
  rw [hparse]
  dsimp only
  rw [layoutNodes_nil]
  dsimp only [mapExcept, List.map_nil, List.foldl_nil]
  rw [show max ((200 : ℚ) + 40) 200 = 240 from by
    rw [max_eq_left (by norm_num)]; norm_num]
  rw [show max ((100 : ℚ) + 40) 100 = 140 from by
    rw [max_eq_left (by norm_num)]; norm_num]
  rw [numToString_240, numToString_140]
  rfl

/-- C7 (witness): the claim applied to the empty description and to an
all-whitespace description, with default options. -/
theorem generateDiagram_empty_witness :
    (stageList "" = [] ∧
      generateDiagram "" {} =
        Except.ok { svg := emptySvg, nodes := [], edges := [] }) ∧
    (stageList "  \t " = [] ∧
      generateDiagram "  \t " {} =
        Except.ok { svg := emptySvg, nodes := [], edges := [] }) :=
  ⟨⟨by decide, generateDiagram_empty "" {} (by decide)⟩,
   ⟨by decide, generateDiagram_empty "  \t " {} (by decide)⟩⟩

-- ─── Lemmas: document safety of the renderer ───────────────────────────────

theorem svgSafe_str_append {s t : String} (hs : svgSafeChars s.data = true)
    (ht : svgSafeChars t.data = true) : svgSafeChars (s ++ t).data = true := by
  rw [String.data_append]
  exact svgSafeChars_append hs ht

theorem numToString_safe (q : ℚ) :
    svgSafeChars (numToString q).data = true :=
  svgSafeChars_of_no_specials (numToString_chars q)

attribute [irreducible] numToString escapeXml

set_option maxHeartbeats 1000000 in
theorem renderNode_ok_safe {n : DiagramNode} {fs : ℚ} {ff s : String}
    (hff : ∀ c ∈ ff.data, c ≠ '&' ∧ c ≠ '<')
    (h : renderNode n fs ff = .ok s) : svgSafeChars s.data = true := by
  unfold renderNode at h
  cases hl : n.label with
  | none => rw [hl] at h; cases h
  | some lab =>
    rw [hl] at h
    dsimp only at h
    cases hsub : n.subComponents with
    | some subs =>
      rw [hsub] at h
      dsimp only at h
      injection h with h
      subst h
      refine joinSep_safe "\n  " (by decide) _ ?_
      intro p hp
      simp only [List.mem_append, List.mem_cons, List.mem_singleton,
        List.not_mem_nil, or_false] at hp
      rcases hp with (rfl | rfl) | rfl
      · split_ifs <;>
          (repeat' apply svgSafe_str_append) <;>
            first
              | exact numToString_safe _
              | exact escapeXml_safe _
              | exact svgSafeChars_of_no_specials hff
              | decide
      · (repeat' apply svgSafe_str_append) <;>
          first
            | exact numToString_safe _
            | exact escapeXml_safe _
            | exact svgSafeChars_of_no_specials hff
            | decide
      · (repeat' apply svgSafe_str_append) <;>
          first
            | exact numToString_safe _
            | exact escapeXml_safe _
            | exact svgSafeChars_of_no_specials hff
            | decide
    | none =>
      rw [hsub] at h
      dsimp only at h
      injection h with h
      subst h
      refine joinSep_safe "\n  " (by decide) _ ?_
      intro p hp
      simp only [List.mem_append, List.mem_cons, List.mem_singleton,
        List.not_mem_nil, or_false, List.append_nil] at hp
      rcases hp with rfl | rfl
      · split_ifs <;>
          (repeat' apply svgSafe_str_append) <;>
            first
              | exact numToString_safe _
              | exact escapeXml_safe _
              | exact svgSafeChars_of_no_specials hff
              | decide
      · (repeat' apply svgSafe_str_append) <;>
          first
            | exact numToString_safe _
            | exact escapeXml_safe _
            | exact svgSafeChars_of_no_specials hff
            | decide

set_option maxHeartbeats 1000000 in
theorem renderEdge_safe (e : DiagramEdge) (nodes : List DiagramNode)
    (vert : Bool) : svgSafeChars (renderEdge e nodes vert).data = true := by
  unfold renderEdge
  cases hf : nodes.find? (fun n => decide (n.id = e.fromId)) with
  | none =>
    cases ht : nodes.find? (fun n => decide (n.id = e.toId)) with
    | none => dsimp only; decide
    | some toN => dsimp only; decide
  | some fromN =>
    cases ht : nodes.find? (fun n => decide (n.id = e.toId)) with
    | none => dsimp only; decide
    | some toN =>
      dsimp only
      cases hl : e.label with
      | none =>
        dsimp only
        (repeat' apply svgSafe_str_append) <;>
          first
            | exact numToString_safe _
            | exact escapeXml_safe _
            | decide
      | some lab =>
        dsimp only
        split_ifs <;>
          (repeat' apply svgSafe_str_append) <;>
            first
              | exact numToString_safe _
              | exact escapeXml_safe _
              | decide

-- ─── Claim C5 ──────────────────────────────────────────────────────────────

set_option maxHeartbeats 1000000 in
/-- C5: `escapeXml` replaces `&`, `<`, `>`, `"` by XML entities — its output
contains no raw `<`, `>` or `"` and every `&` in it starts an entity — and it
is applied to every node label, sub-item text and edge label before
insertion, so the whole document emitted by `generateDiagram` stays
"document safe" (`svgSafeChars`): every `&` in it starts an XML entity and
every `<` opens a markup tag.  The font-family option is interpolated into
attributes unescaped by the source, so the document-level statement assumes
the resolved font family contains no raw `&` or `<` (the default one does
not); the description itself is unrestricted. -/
theorem generateDiagram_escapes (desc : String) (opts : DiagramOptions)
    (hff : ∀ c ∈ (orDefaultS opts.fontFamily
      "Arial, Helvetica, sans-serif").data, c ≠ '&' ∧ c ≠ '<') :
    (∀ s : String,
      '<' ∉ (escapeXml s).data ∧ '>' ∉ (escapeXml s).data ∧
      '"' ∉ (escapeXml s).data ∧ svgSafeChars (escapeXml s).data = true) ∧
    svgSafeChars (resultSvg (generateDiagram desc opts)).data = true := by
  constructor
  · intro s
    refine ⟨?_, ?_, ?_, escapeXml_safe s⟩ <;> rw [escapeXml_data]
    · exact (escCharsAll_no_specials s.data).1
    · exact (escCharsAll_no_specials s.data).2.1
    · exact (escCharsAll_no_specials s.data).2.2
  · unfold generateDiagram
    dsimp only
    cases hlay : layoutNodes (parseDiagramDescription desc).1
        (orDefaultS opts.type "pipeline") (orDefaultQ opts.width 800)
        (orDefaultQ opts.nodeSpacing 60) (orDefaultQ opts.layerSpacing 50)
        (orDefaultQ opts.fontSize 14) with
    | error e =>
      dsimp only [resultSvg]
      decide
    | ok nodes =>
      dsimp only
      cases hrender : mapExcept (fun n => renderNode n
          (orDefaultQ opts.fontSize 14)
          (orDefaultS opts.fontFamily "Arial, Helvetica, sans-serif"))
          nodes with
      | error e =>
        dsimp only [resultSvg]
        decide
      | ok nodeStrs =>
        dsimp only [resultSvg]
        refine joinSep_safe "\n" (by decide) _ ?_
        intro p hp
        simp only [List.mem_append, List.mem_cons, List.mem_singleton,
          List.not_mem_nil, or_false, List.mem_map] at hp
        rcases hp with
          (((rfl | rfl | rfl | rfl | rfl | rfl | rfl) |
            ⟨e, he, rfl⟩) | ⟨s0, hs0, rfl⟩) | rfl
        · (repeat' apply svgSafe_str_append) <;>
            first
              | exact numToString_safe _
              | decide
        · decide
        · decide
        · decide
        · decide
        · decide
        · decide
        · exact svgSafe_str_append (by decide) (renderEdge_safe e nodes _)
        · rcases mapExcept_ok_mem hrender s0 hs0 with ⟨x, _, hfx⟩
          exact svgSafe_str_append (by decide) (renderNode_ok_safe hff hfx)
        · decide

/-- C5 (witness): the claim applied to the description `"A<B> -> C&D"` with
default options — the resolved default font family contains no raw `&` or
`<`. -/
theorem generateDiagram_escapes_witness :
    (∀ s : String,
      '<' ∉ (escapeXml s).data ∧ '>' ∉ (escapeXml s).data ∧
      '"' ∉ (escapeXml s).data ∧ svgSafeChars (escapeXml s).data = true) ∧
    svgSafeChars (resultSvg (generateDiagram "A<B> -> C&D" {})).data = true :=
  generateDiagram_escapes "A<B> -> C&D" {} (by decide)
